import Mathlib

/-!
Verification of the SDR-AI-Agent request-classification and output-conformance
pipeline (`src/src/agent.py`, `src/src/brightdata_client.py`).

The Python source is shallowly embedded: pure helper functions become Lean
functions over `JValue` (a model of values produced by `json.loads`), the
decision step `run_agent` becomes a function parameterised by the language-model
backend (an oracle `String → String`), and the MCP tool gateway becomes a
function parameterised by a provider oracle.  Python exceptions are modelled
with `Except PyErr`; `print`/logging calls and state bookkeeping that do not
affect a function's return value are not modelled.
-/

namespace SDRAgent

/-- Python exception kinds that can escape the modelled fragment. -/
inductive PyErr where
  | typeError (msg : String)
  | attributeError (msg : String)
  | valueError (msg : String)
  | validationError (msg : String)
  | overflowError (msg : String)
  | keyError (key : String)
  | jsonDecodeError (msg : String)
deriving DecidableEq, Repr

/-- Python `str(e)` of a caught exception: the message, except `KeyError`,
whose `str` is the `repr` of the missing key. -/
def pyErrStr : PyErr → String
  | .typeError m => m
  | .attributeError m => m
  | .valueError m => m
  | .validationError m => m
  | .overflowError m => m
  | .keyError k => "'" ++ k ++ "'"
  | .jsonDecodeError m => m

/-- A value produced by `json.loads`: `null`, booleans, integers, floats
(kept as their source literal), strings, lists and dicts. -/
inductive JValue where
  | null
  | bool (b : Bool)
  | int (n : Int)
  | float (lit : String)
  | str (s : String)
  | arr (xs : List JValue)
  | obj (kvs : List (String × JValue))
deriving Inhabited

mutual

def JValue.beq : JValue → JValue → Bool
  | .null, .null => true
  | .bool a, .bool b => a == b
  | .int a, .int b => a == b
  | .float a, .float b => a == b
  | .str a, .str b => a == b
  | .arr a, .arr b => JValue.beqList a b
  | .obj a, .obj b => JValue.beqPairs a b
  | _, _ => false

def JValue.beqList : List JValue → List JValue → Bool
  | [], [] => true
  | a :: as, b :: bs => JValue.beq a b && JValue.beqList as bs
  | _, _ => false

def JValue.beqPairs : List (String × JValue) → List (String × JValue) → Bool
  | [], [] => true
  | (k, a) :: as, (l, b) :: bs => k == l && JValue.beq a b && JValue.beqPairs as bs
  | _, _ => false

end

instance : BEq JValue := ⟨JValue.beq⟩

mutual

theorem JValue.beq_refl : ∀ (v : JValue), JValue.beq v v = true
  | .null => rfl
  | .bool b => by simp [JValue.beq]
  | .int n => by simp [JValue.beq]
  | .float s => by simp [JValue.beq]
  | .str s => by simp [JValue.beq]
  | .arr xs => by simp [JValue.beq]; exact JValue.beqList_refl xs
  | .obj kvs => by simp [JValue.beq]; exact JValue.beqPairs_refl kvs

theorem JValue.beqList_refl : ∀ (xs : List JValue), JValue.beqList xs xs = true
  | [] => rfl
  | x :: xs => by simp [JValue.beqList]; exact ⟨JValue.beq_refl x, JValue.beqList_refl xs⟩

theorem JValue.beqPairs_refl : ∀ (ps : List (String × JValue)), JValue.beqPairs ps ps = true
  | [] => rfl
  | (k, v) :: ps => by
      simp [JValue.beqPairs]
      exact ⟨JValue.beq_refl v, JValue.beqPairs_refl ps⟩

end

mutual

theorem JValue.eq_of_beq : ∀ {a b : JValue}, JValue.beq a b = true → a = b
  | .null, .null, _ => rfl
  | .bool a, .bool b, h => by simp [JValue.beq] at h; simp [h]
  | .int a, .int b, h => by simp [JValue.beq] at h; simp [h]
  | .float a, .float b, h => by simp [JValue.beq] at h; simp [h]
  | .str a, .str b, h => by simp [JValue.beq] at h; simp [h]
  | .arr a, .arr b, h => by
      simp only [JValue.beq] at h
      have := JValue.eqList_of_beq h; simp [this]
  | .obj a, .obj b, h => by
      simp only [JValue.beq] at h
      have := JValue.eqPairs_of_beq h; simp [this]
  | .null, .bool _, h => by simp [JValue.beq] at h
  | .null, .int _, h => by simp [JValue.beq] at h
  | .null, .float _, h => by simp [JValue.beq] at h
  | .null, .str _, h => by simp [JValue.beq] at h
  | .null, .arr _, h => by simp [JValue.beq] at h
  | .null, .obj _, h => by simp [JValue.beq] at h
  | .bool _, .null, h => by simp [JValue.beq] at h
  | .bool _, .int _, h => by simp [JValue.beq] at h
  | .bool _, .float _, h => by simp [JValue.beq] at h
  | .bool _, .str _, h => by simp [JValue.beq] at h
  | .bool _, .arr _, h => by simp [JValue.beq] at h
  | .bool _, .obj _, h => by simp [JValue.beq] at h
  | .int _, .null, h => by simp [JValue.beq] at h
  | .int _, .bool _, h => by simp [JValue.beq] at h
  | .int _, .float _, h => by simp [JValue.beq] at h
  | .int _, .str _, h => by simp [JValue.beq] at h
  | .int _, .arr _, h => by simp [JValue.beq] at h
  | .int _, .obj _, h => by simp [JValue.beq] at h
  | .float _, .null, h => by simp [JValue.beq] at h
  | .float _, .bool _, h => by simp [JValue.beq] at h
  | .float _, .int _, h => by simp [JValue.beq] at h
  | .float _, .str _, h => by simp [JValue.beq] at h
  | .float _, .arr _, h => by simp [JValue.beq] at h
  | .float _, .obj _, h => by simp [JValue.beq] at h
  | .str _, .null, h => by simp [JValue.beq] at h
  | .str _, .bool _, h => by simp [JValue.beq] at h
  | .str _, .int _, h => by simp [JValue.beq] at h
  | .str _, .float _, h => by simp [JValue.beq] at h
  | .str _, .arr _, h => by simp [JValue.beq] at h
  | .str _, .obj _, h => by simp [JValue.beq] at h
  | .arr _, .null, h => by simp [JValue.beq] at h
  | .arr _, .bool _, h => by simp [JValue.beq] at h
  | .arr _, .int _, h => by simp [JValue.beq] at h
  | .arr _, .float _, h => by simp [JValue.beq] at h
  | .arr _, .str _, h => by simp [JValue.beq] at h
  | .arr _, .obj _, h => by simp [JValue.beq] at h
  | .obj _, .null, h => by simp [JValue.beq] at h
  | .obj _, .bool _, h => by simp [JValue.beq] at h
  | .obj _, .int _, h => by simp [JValue.beq] at h
  | .obj _, .float _, h => by simp [JValue.beq] at h
  | .obj _, .str _, h => by simp [JValue.beq] at h
  | .obj _, .arr _, h => by simp [JValue.beq] at h

theorem JValue.eqList_of_beq : ∀ {a b : List JValue}, JValue.beqList a b = true → a = b
  | [], [], _ => rfl
  | x :: xs, y :: ys, h => by
      simp only [JValue.beqList, Bool.and_eq_true] at h
      have h1 := JValue.eq_of_beq h.1
      have h2 := JValue.eqList_of_beq h.2
      simp [h1, h2]
  | [], _ :: _, h => by simp [JValue.beqList] at h
  | _ :: _, [], h => by simp [JValue.beqList] at h

theorem JValue.eqPairs_of_beq :
    ∀ {a b : List (String × JValue)}, JValue.beqPairs a b = true → a = b
  | [], [], _ => rfl
  | (k, x) :: xs, (l, y) :: ys, h => by
      simp only [JValue.beqPairs, Bool.and_eq_true] at h
      have h0 : k = l := by simpa using h.1.1
      have h1 := JValue.eq_of_beq h.1.2
      have h2 := JValue.eqPairs_of_beq h.2
      simp [h0, h1, h2]
  | [], _ :: _, h => by simp [JValue.beqPairs] at h
  | _ :: _, [], h => by simp [JValue.beqPairs] at h

end

instance : DecidableEq JValue := fun a b =>
  if h : JValue.beq a b = true then
    .isTrue (JValue.eq_of_beq h)
  else
    .isFalse (fun he => h (he ▸ JValue.beq_refl a))

instance : LawfulBEq JValue where
  eq_of_beq := JValue.eq_of_beq
  rfl := fun {a} => JValue.beq_refl a

/-! ### Character-level string utilities (Python `str` methods) -/

/-- Whitespace recognised by Python `str.strip()` (the ASCII fragment). -/
def pyIsSpace (c : Char) : Bool :=
  c == ' ' || c == '\t' || c == '\n' || c == '\r' ||
    c == Char.ofNat 11 || c == Char.ofNat 12

def dropWhileSpace (cs : List Char) : List Char := cs.dropWhile pyIsSpace

/-- Python `str.strip()` on a character list. -/
def pyStripL (cs : List Char) : List Char :=
  ((dropWhileSpace cs.reverse).reverse : List Char) |> dropWhileSpace

/-- Python `str.strip()`. -/
def pyStrip (s : String) : String := (pyStripL s.toList).asString

/-- Does `pat` occur starting at the head of `cs`? -/
def headMatches : List Char → List Char → Bool
  | [], _ => true
  | _ :: _, [] => false
  | p :: ps, c :: cs => p == c && headMatches ps cs

/-- Python `str.find`: index of the first occurrence of `pat` in `cs`, if any. -/
def findSub (cs pat : List Char) : Option Nat :=
  match cs with
  | [] => if pat.isEmpty then some 0 else none
  | _ :: rest =>
      if headMatches pat cs then some 0
      else match findSub rest pat with
           | some i => some (i + 1)
           | none => none

/-- Python `pat in s` substring test. -/
def containsSub (cs pat : List Char) : Bool := (findSub cs pat).isSome

/-- Python ASCII `str.lower()`. -/
def pyLowerChar (c : Char) : Char :=
  if 'A' ≤ c && c ≤ 'Z' then Char.ofNat (c.toNat + 32) else c

def pyLowerL (cs : List Char) : List Char := cs.map pyLowerChar

def pyLower (s : String) : String := (pyLowerL s.toList).asString

/-- Python `str.replace(old, new)` (all non-overlapping occurrences, left to
right); `old` is assumed non-empty, as at every call site in the source. -/
def pyReplaceAux (fuel : Nat) (cs old new : List Char) : List Char :=
  match fuel with
  | 0 => cs
  | fuel + 1 =>
      match old with
      | [] => cs
      | o :: os =>
          match cs with
          | [] => []
          | c :: rest =>
              if headMatches (o :: os) (c :: rest) then
                new ++ pyReplaceAux fuel ((c :: rest).drop (o :: os).length) (o :: os) new
              else
                c :: pyReplaceAux fuel rest (o :: os) new

def pyReplaceL (cs old new : List Char) : List Char :=
  pyReplaceAux (cs.length + 1) cs old new

def pyReplace (s old new : String) : String :=
  (pyReplaceL s.toList old.toList new.toList).asString

/-- Python `str.startswith`. -/
def pyStartsWith (cs pat : List Char) : Bool := headMatches pat cs

/-- Python `str.endswith`. -/
def pyEndsWith (cs pat : List Char) : Bool := headMatches pat.reverse cs.reverse

/-- Python slice `s[a:b]` (character indices). -/
def sliceL (cs : List Char) (a b : Nat) : List Char := (cs.take b).drop a

/-- Python `str.split(sep)` for a single-character separator. -/
def splitOnChar (sep : Char) (cs : List Char) : List (List Char) :=
  match cs with
  | [] => [[]]
  | c :: rest =>
      let r := splitOnChar sep rest
      if c == sep then [] :: r
      else match r with
           | [] => [[c]]
           | g :: gs => (c :: g) :: gs

/-! ### `json.loads`: a model of Python's JSON decoder -/

/-- Whitespace skipped by Python's JSON decoder: space, tab, newline, return. -/
def jsonWs (c : Char) : Bool := c == ' ' || c == '\t' || c == '\n' || c == '\r'

def skipJsonWs (cs : List Char) : List Char := cs.dropWhile jsonWs

def isDigitChar (c : Char) : Bool := 48 ≤ c.toNat && c.toNat ≤ 57

def takeDigitRun : List Char → List Char × List Char
  | [] => ([], [])
  | c :: cs =>
      if isDigitChar c then
        let (ds, r) := takeDigitRun cs
        (c :: ds, r)
      else ([], c :: cs)

def digitVal (c : Char) : Nat := c.toNat - '0'.toNat

def natOfDigits (ds : List Char) : Nat :=
  ds.foldl (fun acc c => acc * 10 + digitVal c) 0

def hexDigitVal (c : Char) : Option Nat :=
  let n := c.toNat
  if 48 ≤ n && n ≤ 57 then some (n - 48)
  else if 97 ≤ n && n ≤ 102 then some (n - 97 + 10)
  else if 65 ≤ n && n ≤ 70 then some (n - 65 + 10)
  else none

def hex4Val (a b c d : Char) : Option Nat := do
  let va ← hexDigitVal a
  let vb ← hexDigitVal b
  let vc ← hexDigitVal c
  let vd ← hexDigitVal d
  return ((va * 16 + vb) * 16 + vc) * 16 + vd

/-- The character a single-character JSON escape decodes to, if valid. -/
def escCharVal (e : Char) : Option Char :=
  if e == '"' then some '"'
  else if e == '\\' then some '\\'
  else if e == '/' then some '/'
  else if e == 'b' then some (Char.ofNat 8)
  else if e == 'f' then some (Char.ofNat 12)
  else if e == 'n' then some '\n'
  else if e == 'r' then some '\r'
  else if e == 't' then some '\t'
  else none

/-- Decode the body of a JSON string literal after the opening quote.  Python's
strict decoder rejects raw control characters and unknown escapes; `\uXXXX`
pairs of surrogates are combined. -/
def parseJStr (fuel : Nat) (acc : List Char) (cs : List Char) : Option (String × List Char) :=
  match fuel with
  | 0 => none
  | fuel + 1 =>
  match cs with
  | [] => none
  | c :: rest =>
      if c == '"' then some (acc.reverse.asString, rest)
      else if c == '\\' then
        match rest with
        | [] => none
        | e :: rest2 =>
            if e == 'u' then
              match rest2 with
              | a :: b :: cc :: d :: rest3 =>
                  (match hex4Val a b cc d with
                   | none => none
                   | some n =>
                      if 0xD800 ≤ n && n ≤ 0xDBFF then
                        match rest3 with
                        | x :: y :: a2 :: b2 :: c2 :: d2 :: rest4 =>
                            if x == '\\' && y == 'u' then
                              match hex4Val a2 b2 c2 d2 with
                              | some m =>
                                  if 0xDC00 ≤ m && m ≤ 0xDFFF then
                                    parseJStr fuel
                                      (Char.ofNat
                                        (0x10000 + (n - 0xD800) * 0x400 + (m - 0xDC00)) :: acc)
                                      rest4
                                  else parseJStr fuel (Char.ofNat n :: acc) rest3
                              | none => parseJStr fuel (Char.ofNat n :: acc) rest3
                            else parseJStr fuel (Char.ofNat n :: acc) rest3
                        | _ => parseJStr fuel (Char.ofNat n :: acc) rest3
                      else parseJStr fuel (Char.ofNat n :: acc) rest3)
              | _ => none
            else
              match escCharVal e with
              | some ch => parseJStr fuel (ch :: acc) rest2
              | none => none
      else if c.toNat < 0x20 then none
      else parseJStr fuel (c :: acc) rest

/-- The optional fraction part: `none` models a `.` not followed by digits
(which makes the whole number fail to scan as one token). -/
def numFracPart (cs2 : List Char) : Option (List Char × List Char) :=
  match cs2 with
  | c2 :: r2 =>
      if c2 == '.' then
        let (ds, r') := takeDigitRun r2
        if ds.isEmpty then none else some (ds, r')
      else some ([], cs2)
  | [] => some ([], cs2)

/-- The optional exponent part (sign included in the returned digit list);
`none` models an `e`/`E` not followed by digits. -/
def numExpPart (cs3 : List Char) : Option (List Char × List Char × Bool) :=
  match cs3 with
  | c3 :: r3 =>
      if c3 == 'e' || c3 == 'E' then
        let (sgn, r1) : List Char × List Char :=
          match r3 with
          | c4 :: r4 =>
              if c4 == '+' then (['+'], r4)
              else if c4 == '-' then (['-'], r4)
              else ([], r3)
          | [] => ([], r3)
        let (ds, r2) := takeDigitRun r1
        if ds.isEmpty then none else some (sgn ++ ds, r2, true)
      else some ([], cs3, false)
  | [] => some ([], cs3, false)

/-- The part of a JSON number after the optional minus sign. -/
def parseJNumBody (neg : Bool) (cs1 : List Char) : Option (JValue × List Char) :=
  match cs1 with
  | [] => none
  | c :: _ =>
      if !isDigitChar c then none
      else
        let (intDs, cs2) := takeDigitRun cs1
        if intDs.length > 1 && intDs.headD '0' == '0' then none
        else
          match numFracPart cs2 with
          | none => none
          | some (fracDs, cs3) =>
              match numExpPart cs3 with
              | none => none
              | some (expDs, cs4, hasExp) =>
                  if fracDs.isEmpty && !hasExp then
                    let n : Int := Int.ofNat (natOfDigits intDs)
                    some (.int (if neg then -n else n), cs4)
                  else
                    let lit : List Char :=
                      (if neg then ['-'] else []) ++ intDs ++
                      (if fracDs.isEmpty then [] else '.' :: fracDs) ++
                      (if hasExp then 'e' :: expDs else [])
                    some (.float lit.asString, cs4)

/-- Parse a JSON number at the head of the input, following Python's
`NUMBER_RE`: an optional minus, an integer part without leading zeros, an
optional fraction, an optional exponent.  Numbers with a fraction or exponent
decode to `float` (kept as their literal); bare integers decode to `int`. -/
def parseJNum (cs : List Char) : Option (JValue × List Char) :=
  match cs with
  | c :: r => if c == '-' then parseJNumBody true r else parseJNumBody false cs
  | [] => parseJNumBody false cs

/-- Insert a key into an association list the way assignment into a Python
`dict` does: an existing key keeps its position and gets the new value,
otherwise the pair is appended. -/
def dictUpsert (kvs : List (String × JValue)) (k : String) (v : JValue) :
    List (String × JValue) :=
  match kvs with
  | [] => [(k, v)]
  | (k0, v0) :: rest =>
      if k0 == k then (k0, v) :: rest
      else (k0, v0) :: dictUpsert rest k v

def dictOfPairs (ps : List (String × JValue)) : List (String × JValue) :=
  ps.foldl (fun acc kv => dictUpsert acc kv.1 kv.2) []

mutual

/-- Parse one JSON value (fuel-indexed; Python extensions `NaN`, `Infinity`
and `-Infinity` are accepted as float constants, as `json.loads` does). -/
def parseJVal (fuel : Nat) (cs : List Char) : Option (JValue × List Char) :=
  match fuel with
  | 0 => none
  | fuel + 1 =>
      if headMatches "null".toList cs then some (.null, cs.drop 4)
      else if headMatches "true".toList cs then some (.bool true, cs.drop 4)
      else if headMatches "false".toList cs then some (.bool false, cs.drop 5)
      else if headMatches "NaN".toList cs then some (.float "nan", cs.drop 3)
      else if headMatches "Infinity".toList cs then some (.float "inf", cs.drop 8)
      else if headMatches "-Infinity".toList cs then some (.float "-inf", cs.drop 9)
      else
        match cs with
        | [] => none
        | c :: r =>
            if c == '"' then
              match parseJStr (r.length + 1) [] r with
              | some (s, r') => some (.str s, r')
              | none => none
            else if c == '[' then
              match skipJsonWs r with
              | [] =>
                  (match parseJItems fuel [] with
                   | some (xs, r') => some (.arr xs, r')
                   | none => none)
              | c1 :: r1 =>
                  if c1 == ']' then some (.arr [], r1)
                  else
                    match parseJItems fuel (c1 :: r1) with
                    | some (xs, r') => some (.arr xs, r')
                    | none => none
            else if c == '{' then
              match skipJsonWs r with
              | [] =>
                  (match parseJMembers fuel [] with
                   | some (ps, r') => some (.obj (dictOfPairs ps), r')
                   | none => none)
              | c1 :: r1 =>
                  if c1 == '}' then some (.obj [], r1)
                  else
                    match parseJMembers fuel (c1 :: r1) with
                    | some (ps, r') => some (.obj (dictOfPairs ps), r')
                    | none => none
            else parseJNum cs

def parseJItems (fuel : Nat) (cs : List Char) : Option (List JValue × List Char) :=
  match fuel with
  | 0 => none
  | fuel + 1 =>
      match parseJVal fuel cs with
      | none => none
      | some (v, r) =>
          match skipJsonWs r with
          | [] => none
          | c :: r' =>
              if c == ',' then
                match parseJItems fuel (skipJsonWs r') with
                | some (vs, r'') => some (v :: vs, r'')
                | none => none
              else if c == ']' then some ([v], r')
              else none

def parseJMembers (fuel : Nat) (cs : List Char) :
    Option (List (String × JValue) × List Char) :=
  match fuel with
  | 0 => none
  | fuel + 1 =>
      match cs with
      | [] => none
      | c :: r =>
          if c == '"' then
            match parseJStr (r.length + 1) [] r with
            | none => none
            | some (k, r1) =>
                match skipJsonWs r1 with
                | [] => none
                | c2 :: r2 =>
                    if c2 == ':' then
                      match parseJVal fuel (skipJsonWs r2) with
                      | none => none
                      | some (v, r3) =>
                          match skipJsonWs r3 with
                          | [] => none
                          | c3 :: r4 =>
                              if c3 == ',' then
                                match parseJMembers fuel (skipJsonWs r4) with
                                | some (ps, r5) => some ((k, v) :: ps, r5)
                                | none => none
                              else if c3 == '}' then some ([(k, v)], r4)
                              else none
                    else none
          else none

end

/-- `json.loads`, returning `none` where Python raises `JSONDecodeError`:
skip leading whitespace, parse one value, require only whitespace after it. -/
def jsonLoads (s : String) : Option JValue :=
  let cs := skipJsonWs s.toList
  match parseJVal (cs.length + 1) cs with
  | none => none
  | some (v, r) => if (skipJsonWs r).isEmpty then some v else none

/-! ### `json.dumps` and Python `str`/`repr`/`int`/`bool` conversions -/

def digitChar (n : Nat) : Char := Char.ofNat ('0'.toNat + n)

def hexChar (n : Nat) : Char :=
  if n < 10 then digitChar n else Char.ofNat ('a'.toNat + (n - 10))

def natDigitsAux (fuel : Nat) (n : Nat) : List Char :=
  match fuel with
  | 0 => []
  | fuel + 1 =>
      if n < 10 then [digitChar n]
      else natDigitsAux fuel (n / 10) ++ [digitChar (n % 10)]

/-- Decimal digits of a natural number, most significant first. -/
def natDigits (n : Nat) : List Char := natDigitsAux (n + 1) n

/-- Python `repr` of an integer. -/
def intRepr (n : Int) : List Char :=
  if n < 0 then '-' :: natDigits n.natAbs else natDigits n.natAbs

/-- A `\uXXXX` escape, lowercase hex, as emitted by `json.dumps`. -/
def uEscape (n : Nat) : List Char :=
  ['\\', 'u', hexChar (n / 4096 % 16), hexChar (n / 256 % 16),
   hexChar (n / 16 % 16), hexChar (n % 16)]

/-- How `json.dumps` (default `ensure_ascii=True`) renders one character of a
string: printable ASCII other than `"` and `\` is kept, everything else is
escaped. -/
def jsonEscapeChar (c : Char) : List Char :=
  if c == '"' then ['\\', '"']
  else if c == '\\' then ['\\', '\\']
  else if c == '\n' then ['\\', 'n']
  else if c == '\r' then ['\\', 'r']
  else if c == '\t' then ['\\', 't']
  else if c.toNat == 8 then ['\\', 'b']
  else if c.toNat == 12 then ['\\', 'f']
  else if c.toNat < 0x20 then uEscape c.toNat
  else if c.toNat < 0x7f then [c]
  else if c.toNat < 0x10000 then uEscape c.toNat
  else
    uEscape (0xD800 + (c.toNat - 0x10000) / 0x400) ++
      uEscape (0xDC00 + (c.toNat - 0x10000) % 0x400)

def jsonEscape (cs : List Char) : List Char := cs.flatMap jsonEscapeChar

mutual

/-- `json.dumps` with default settings: separators `", "` and `": "`. -/
def dumpJ : JValue → List Char
  | .null => "null".toList
  | .bool true => "true".toList
  | .bool false => "false".toList
  | .int n => intRepr n
  | .float lit => lit.toList
  | .str s => '"' :: (jsonEscape s.toList ++ ['"'])
  | .arr xs => '[' :: (dumpItems xs ++ [']'])
  | .obj kvs => '{' :: (dumpMembers kvs ++ ['}'])

def dumpItems : List JValue → List Char
  | [] => []
  | [x] => dumpJ x
  | x :: y :: xs => dumpJ x ++ ',' :: ' ' :: dumpItems (y :: xs)

def dumpMembers : List (String × JValue) → List Char
  | [] => []
  | [(k, v)] => '"' :: (jsonEscape k.toList ++ '"' :: ':' :: ' ' :: dumpJ v)
  | (k, v) :: m :: ms =>
      '"' :: (jsonEscape k.toList ++ '"' :: ':' :: ' ' :: dumpJ v) ++
        ',' :: ' ' :: dumpMembers (m :: ms)

end

def py_json_dumps (v : JValue) : String := (dumpJ v).asString

/-- Python `repr` of one character of a string literal quoted with `q`
(the ASCII fragment: controls become `\xHH`, printables are kept). -/
def pyReprChar (q : Char) (c : Char) : List Char :=
  if c == '\\' then ['\\', '\\']
  else if c == q then ['\\', q]
  else if c == '\n' then ['\\', 'n']
  else if c == '\r' then ['\\', 'r']
  else if c == '\t' then ['\\', 't']
  else if c.toNat < 0x20 || c.toNat == 0x7f then
    ['\\', 'x', hexChar (c.toNat / 16 % 16), hexChar (c.toNat % 16)]
  else [c]

/-- Python `repr` of a string: single quotes, unless the string contains a
single quote and no double quote. -/
def pyReprStr (s : String) : List Char :=
  let q : Char :=
    if s.toList.contains '\'' && !(s.toList.contains '"') then '"' else '\''
  q :: (s.toList.flatMap (pyReprChar q) ++ [q])

mutual

/-- Python `repr` of a decoded JSON value (`None`/`True`/`False`,
single-quoted strings, `[...]`, curly-brace dicts). -/
def pyReprJ : JValue → List Char
  | .null => ['N', 'o', 'n', 'e']
  | .bool true => ['T', 'r', 'u', 'e']
  | .bool false => ['F', 'a', 'l', 's', 'e']
  | .int n => intRepr n
  | .float lit => lit.toList
  | .str s => pyReprStr s
  | .arr xs => '[' :: (pyReprItems xs ++ [']'])
  | .obj kvs => '{' :: (pyReprMembers kvs ++ ['}'])

def pyReprItems : List JValue → List Char
  | [] => []
  | [x] => pyReprJ x
  | x :: y :: xs => pyReprJ x ++ ',' :: ' ' :: pyReprItems (y :: xs)

def pyReprMembers : List (String × JValue) → List Char
  | [] => []
  | [(k, v)] => pyReprStr k ++ ':' :: ' ' :: pyReprJ v
  | (k, v) :: m :: ms =>
      pyReprStr k ++ ':' :: ' ' :: pyReprJ v ++ ',' :: ' ' :: pyReprMembers (m :: ms)

end

/-- Python `str()` of a decoded JSON value: strings are themselves, everything
else renders as its `repr`. -/
def pyStrJ : JValue → String
  | .str s => s
  | v => (pyReprJ v).asString

/-- Python truthiness of a decoded JSON value. -/
def pyTruthy : JValue → Bool
  | .null => false
  | .bool b => b
  | .int n => n != 0
  | .float lit =>
      (lit.toList.takeWhile (fun c => c != 'e' && c != 'E')).any
          (fun c => '1' ≤ c && c ≤ '9') ||
        lit == "nan" || lit == "inf" || lit == "-inf"
  | .str s => !s.isEmpty
  | .arr xs => !xs.isEmpty
  | .obj kvs => !kvs.isEmpty

/-- Digits-with-underscores tail of a Python integer literal (an underscore
must sit between two digits). -/
def intDigitsTail (acc : Nat) : List Char → Option Nat
  | [] => some acc
  | '_' :: d :: r =>
      if isDigitChar d then intDigitsTail (acc * 10 + digitVal d) r else none
  | d :: r =>
      if isDigitChar d then intDigitsTail (acc * 10 + digitVal d) r else none

/-- Python `int(s)` on a string: strip whitespace, optional sign, digits with
optional single underscores between them; `none` models `ValueError`. -/
def pyIntOfString (s : String) : Option Int :=
  let t := pyStripL s.toList
  let (sgn, t1) : Int × List Char :=
    match t with
    | '+' :: r => (1, r)
    | '-' :: r => (-1, r)
    | _ => (1, t)
  match t1 with
  | [] => none
  | d :: r =>
      if isDigitChar d then
        match intDigitsTail (digitVal d) r with
        | some n => some (sgn * Int.ofNat n)
        | none => none
      else none

def isInfLit (l : String) : Bool := l == "inf" || l == "-inf"

/-- Truncation toward zero of a JSON number literal (models `int()` applied to
the float a literal decodes to; the binary-float overflow of astronomically
large literals to infinity is not modelled — no theorem below depends on
integer coercion of float-valued fields). -/
def truncOfNumberLit (lit : String) : Option Int :=
  let cs := lit.toList
  let (neg, cs1) : Bool × List Char :=
    match cs with
    | '-' :: r => (true, r)
    | _ => (false, cs)
  let (intDs, cs2) := takeDigitRun cs1
  if intDs.isEmpty then none
  else
    let (fracDs, cs3) : List Char × List Char :=
      match cs2 with
      | '.' :: r => takeDigitRun r
      | _ => ([], cs2)
    let (expSgn, expDs, cs4) : Int × List Char × List Char :=
      match cs3 with
      | 'e' :: '+' :: r | 'E' :: '+' :: r =>
          let (ds, r') := takeDigitRun r
          (1, ds, r')
      | 'e' :: '-' :: r | 'E' :: '-' :: r =>
          let (ds, r') := takeDigitRun r
          (-1, ds, r')
      | 'e' :: r | 'E' :: r =>
          let (ds, r') := takeDigitRun r
          (1, ds, r')
      | _ => (1, [], cs3)
    if !cs4.isEmpty then none
    else
      let e : Int := expSgn * Int.ofNat (natOfDigits expDs) - Int.ofNat fracDs.length
      let m : Nat := natOfDigits (intDs ++ fracDs)
      let mag : Nat :=
        if e ≥ 0 then m * 10 ^ e.toNat else m / 10 ^ (-e).toNat
      some (if neg then -(Int.ofNat mag) else Int.ofNat mag)

/-- Python `int(value)` for a decoded JSON value, inside a
`try/except (ValueError, TypeError)` block: `.ok none` is a caught conversion
failure, `.error` an uncaught exception (`OverflowError` on infinities). -/
def pyIntOfJ : JValue → Except PyErr (Option Int)
  | .int n => .ok (some n)
  | .bool b => .ok (some (if b then 1 else 0))
  | .str s => .ok (pyIntOfString s)
  | .float l =>
      if isInfLit l then .error (.overflowError "cannot convert float infinity to integer")
      else .ok (truncOfNumberLit l)
  | .arr _ => .ok none
  | .obj _ => .ok none
  | .null => .ok none

/-! ### `clean_json_response` (src/src/agent.py lines 641-695) -/

mutual

/-- Offset of the `}` closing a match of the regex `\x7b(?:[^\x7b\x7d]|\x7b[^\x7b\x7d]*\x7d)*\x7d`
whose opening brace immediately precedes `cs`; the greedy star stops at the
first top-level `\x7d`, treating one-level `\x7b...\x7d` groups as single units, and
the whole match fails on a group that never closes flat. -/
def p1End : List Char → Option Nat
  | [] => none
  | c :: r =>
      if c == '}' then some 0
      else if c == '{' then (p1Inner r).map (· + 1)
      else (p1End r).map (· + 1)

def p1Inner : List Char → Option Nat
  | [] => none
  | c :: r =>
      if c == '}' then (p1End r).map (· + 1)
      else if c == '{' then none
      else (p1Inner r).map (· + 1)

end

/-- `re.findall` of the nested-object pattern: scan left to right, taking each
match and resuming after it. -/
def findAll1Aux (fuel : Nat) : List Char → List (List Char)
  | [] => []
  | c :: rest =>
      match fuel with
      | 0 => []
      | fuel + 1 =>
          if c == '{' then
            match p1End rest with
            | some j => ('{' :: rest.take (j + 1)) :: findAll1Aux fuel (rest.drop (j + 1))
            | none => findAll1Aux fuel rest
          else findAll1Aux fuel rest

def findAll1 (cs : List Char) : List (List Char) := findAll1Aux cs.length cs

/-- `re.findall` of the simple pattern `\x7b[^\x7d]*\x7d`: from each `\x7b`, the match
runs to the first following `\x7d`. -/
def findAll2Aux (fuel : Nat) : List Char → List (List Char)
  | [] => []
  | c :: rest =>
      match fuel with
      | 0 => []
      | fuel + 1 =>
          if c == '{' then
            match findSub rest ['}'] with
            | some j => ('{' :: rest.take (j + 1)) :: findAll2Aux fuel (rest.drop (j + 1))
            | none => findAll2Aux fuel rest
          else findAll2Aux fuel rest

def findAll2 (cs : List Char) : List (List Char) := findAll2Aux cs.length cs

/-- First regex match that `json.loads` accepts, stripped — the body of the
`for match in matches` loop. -/
def firstValidJson (ms : List (List Char)) : Option String :=
  match ms with
  | [] => none
  | m :: rest =>
      if (jsonLoads m.asString).isSome then some (pyStripL m).asString
      else firstValidJson rest

/-- The final brace-counting fallback: walk the string keeping a brace
counter; at every `\x7d` that brings it to zero, try the prefix as JSON. -/
def braceScanAux (full : List Char) (i : Nat) (count : Int) : List Char → Option String
  | [] => none
  | c :: r =>
      let count' : Int :=
        if c == '{' then count + 1 else if c == '}' then count - 1 else count
      if c == '}' && count' == 0 then
        let cand := (full.take (i + 1)).asString
        if (jsonLoads cand).isSome then some cand
        else braceScanAux full (i + 1) count' r
      else braceScanAux full (i + 1) count' r

/-- The markdown-fence stripping stage of `clean_json_response`. -/
def stripFences (r0 : List Char) : List Char :=
  if containsSub r0 "```json".toList then
    match findSub r0 "```json".toList with
    | some i =>
        let start := i + 7
        match findSub (r0.drop start) "```".toList with
        | some j => pyStripL (sliceL r0 start (start + j))
        | none => r0
    | none => r0
  else if containsSub r0 "```".toList then
    match findSub r0 "```".toList with
    | some i =>
        let start := i + 3
        match findSub (r0.drop start) "```".toList with
        | some j => pyStripL (sliceL r0 start (start + j))
        | none => r0
    | none => r0
  else r0

/-- `clean_json_response`: strip, remove a markdown code fence, try the two
object-shaped regexes for a valid JSON match, then the brace-counting prefix
scan, and finally fall back to the (stripped) text itself. -/
def clean_json_response (response : String) : String :=
  let r1 := stripFences (pyStripL response.toList)
  match firstValidJson (findAll1 r1) with
  | some s => s
  | none =>
    match firstValidJson (findAll2 r1) with
    | some s => s
    | none =>
      if pyStartsWith r1 ['{'] then
        match braceScanAux r1 0 0 r1 with
        | some s => s
        | none => (pyStripL r1).asString
      else (pyStripL r1).asString

/-! ### `validate_json_fields` (src/src/agent.py lines 697-726) -/

/-- Python `field_name in parsed`: dict-key membership, list membership,
substring for strings, `TypeError` otherwise. -/
def pyContainsKey (parsed : JValue) (k : String) : Except PyErr Bool :=
  match parsed with
  | .obj kvs => .ok (kvs.any (·.1 == k))
  | .arr xs => .ok (xs.any (· == JValue.str k))
  | .str s => .ok (containsSub s.toList k.toList)
  | _ => .error (.typeError "argument of type is not iterable")

/-- Python `parsed[field_name]`: dict lookup, `TypeError` for lists and
strings indexed by a string. -/
def pyIndexKey (parsed : JValue) (k : String) : Except PyErr JValue :=
  match parsed with
  | .obj kvs => .ok ((kvs.lookup k).getD .null)
  | .arr _ => .error (.typeError "list indices must be integers or slices, not str")
  | .str _ => .error (.typeError "string indices must be integers")
  | _ => .error (.typeError "object is not subscriptable")

/-- The per-type coercion of `validate_json_fields` for a present field:
`string` stringifies non-`None` non-`str` values, `integer` applies `int()`
with `ValueError`/`TypeError` caught to `None`, `boolean` applies `bool()`,
and any other declared type (including `number`) passes the value through. -/
def isStrJ : JValue → Bool
  | .str _ => true
  | _ => false

def coerceValue (field_type : JValue) (value : JValue) : Except PyErr JValue :=
  if field_type == JValue.str "string" && !(isStrJ value) then
    .ok (if value == .null then .null else .str (pyStrJ value))
  else if field_type == JValue.str "integer" then
    if value == .null then .ok .null
    else
      match pyIntOfJ value with
      | .ok (some n) => .ok (.int n)
      | .ok none => .ok .null
      | .error e => .error e
  else if field_type == JValue.str "boolean" then
    .ok (if value == .null then .null else .bool (pyTruthy value))
  else .ok value

/-- One iteration of the `for field_name, field_type in requested_fields`
loop: membership test, lookup and coercion, `null` when absent. -/
def coerceField (parsed : JValue) (k : String) (ty : JValue) : Except PyErr JValue := do
  let present ← pyContainsKey parsed k
  if present then
    let v ← pyIndexKey parsed k
    coerceValue ty v
  else
    pure .null

/-- The whole field loop, building `validated_response` in schema order. -/
def validateFields (parsed : JValue) :
    List (String × JValue) → Except PyErr (List (String × JValue))
  | [] => .ok []
  | (k, ty) :: rest => do
      let v ← coerceField parsed k ty
      let r ← validateFields parsed rest
      pure ((k, v) :: r)

/-- `validate_json_fields`: decode the response, coerce it per-field against
the requested schema, and re-serialize; a `JSONDecodeError` null-fills every
declared field. -/
def validate_json_fields (response : String) (requested_fields : List (String × JValue)) :
    Except PyErr String :=
  match jsonLoads response with
  | some parsed => do
      let d ← validateFields parsed requested_fields
      pure (py_json_dumps (.obj d))
  | none =>
      .ok (py_json_dumps (.obj (requested_fields.map fun kt => (kt.1, JValue.null))))

/-- The dictionary `validate_json_fields` serializes (before `json.dumps`). -/
def normalizeDict (response : String) (S : List (String × JValue)) :
    Except PyErr (List (String × JValue)) :=
  match jsonLoads response with
  | some parsed => validateFields parsed S
  | none => .ok (S.map fun kt => (kt.1, JValue.null))

/-- The composite normalizer of the spec: `validate_json_fields` applied to
`clean_json_response` of the raw model output. -/
def normalize (rawOutput : String) (S : List (String × JValue)) : Except PyErr String :=
  validate_json_fields (clean_json_response rawOutput) S

/-- A schema given as field-name/type-tag string pairs, as a Python dict
value. -/
def schemaOf (S : List (String × String)) : List (String × JValue) :=
  S.map fun kt => (kt.1, JValue.str kt.2)

/-- Printable ASCII that `json.dumps` emits verbatim and that cannot open or
close a brace group or a markdown fence: excludes `"`, `\`, both braces and
the backtick (code point 96). -/
def safeChar (c : Char) : Bool :=
  32 ≤ c.toNat && c.toNat ≤ 126 &&
    c != '"' && c != '\\' && c != '{' && c != '}' && c.toNat != 96

/-- A flat JSON value whose serialization contains no braces, fences, quotes
or escapes: null, booleans, integers, and strings of `safeChar`s. -/
def flatSafe : JValue → Bool
  | .null => true
  | .bool _ => true
  | .int _ => true
  | .str s => s.toList.all safeChar
  | _ => false

/-- A dictionary whose keys are `safeChar` strings and whose values are
`flatSafe`. -/
def safeKVs (d : List (String × JValue)) : Bool :=
  d.all fun kv => kv.1.toList.all safeChar && flatSafe kv.2

/-- The shapes that legitimately follow a serialized number inside a
serialized object: end of input, a separator, or a closing token. -/
def numBoundary : List Char → Prop
  | [] => True
  | c :: _ => isDigitChar c = false ∧ c ≠ '.' ∧ c ≠ 'e' ∧ c ≠ 'E'

/-! ### `extract_json_structure` (src/src/agent.py lines 728-769) -/

/-- Characters matched by the regex class `\s`. -/
def reWs (c : Char) : Bool :=
  c == ' ' || c == '\t' || c == '\n' || c == '\r' ||
    c == Char.ofNat 11 || c == Char.ofNat 12

/-- Does the literal regex fragment `"format"\s*:\s*"json"` match at the head
of `cs`? -/
def matchFmtAt (cs : List Char) : Bool :=
  if headMatches "\"format\"".toList cs then
    match (cs.drop 8).dropWhile reWs with
    | ':' :: r3 => headMatches "\"json\"".toList (r3.dropWhile reWs)
    | _ => false
  else false

/-- Does the format literal occur anywhere in `cs`? -/
def hasFmtLit (cs : List Char) : Bool := cs.tails.any matchFmtAt

/-- One match attempt of the flat pattern
`\x7b[^\x7b\x7d]*"format"\s*:\s*"json"[^\x7b\x7d]*\x7d` whose opening brace precedes
`rest`: the brace-free run must be closed by `\x7d` and contain the format
literal.  Returns the offset of the closing brace. -/
def patAEnd (rest : List Char) : Option Nat :=
  let flat := rest.takeWhile (fun c => c != '{' && c != '}')
  match rest.drop flat.length with
  | '}' :: _ => if hasFmtLit flat then some flat.length else none
  | _ => none

def findAllAAux (fuel : Nat) : List Char → List (List Char)
  | [] => []
  | c :: rest =>
      match fuel with
      | 0 => []
      | fuel + 1 =>
          if c == '{' then
            match patAEnd rest with
            | some j => ('{' :: rest.take (j + 1)) :: findAllAAux fuel (rest.drop (j + 1))
            | none => findAllAAux fuel rest
          else findAllAAux fuel rest

def findAllA (cs : List Char) : List (List Char) := findAllAAux cs.length cs

mutual

/-- Scan for the nested pattern with embedded format literal
(`\x7b(?:[^\x7b\x7d]|\x7b[^\x7b\x7d]*\x7d)*"format"\s*:\s*"json"(?:...)*\x7d`): follow the same
single-unit chain as `p1End`, recording whether the format literal matched at
any unit boundary; the match succeeds at the first top-level `\x7d` if it did. -/
def patBScan : List Char → Bool → Option (Nat × Bool)
  | [], _ => none
  | c :: r, found =>
      let found' := found || matchFmtAt (c :: r)
      if c == '}' then some (0, found)
      else if c == '{' then (patBInner r found').map (fun nf => (nf.1 + 1, nf.2))
      else (patBScan r found').map (fun nf => (nf.1 + 1, nf.2))

def patBInner : List Char → Bool → Option (Nat × Bool)
  | [], _ => none
  | c :: r, found =>
      if c == '}' then (patBScan r found).map (fun nf => (nf.1 + 1, nf.2))
      else if c == '{' then none
      else (patBInner r found).map (fun nf => (nf.1 + 1, nf.2))

end

def findAllBAux (fuel : Nat) : List Char → List (List Char)
  | [] => []
  | c :: rest =>
      match fuel with
      | 0 => []
      | fuel + 1 =>
          if c == '{' then
            match patBScan rest false with
            | some (j, true) => ('{' :: rest.take (j + 1)) :: findAllBAux fuel (rest.drop (j + 1))
            | some (_, false) => findAllBAux fuel rest
            | none => findAllBAux fuel rest
          else findAllBAux fuel rest

def findAllB (cs : List Char) : List (List Char) := findAllBAux cs.length cs

/-- `parsed.get(k)` on a decoded dict. -/
def jGet (kvs : List (String × JValue)) (k : String) : Option JValue := kvs.lookup k

/-- The acceptance test applied to every extraction candidate:
`parsed.get("format") == "json" and "fields" in parsed`. -/
def fmtFieldsOk (kvs : List (String × JValue)) : Bool :=
  (jGet kvs "format" == some (JValue.str "json")) && kvs.any (·.1 == "fields")

/-- Decode a candidate substring and keep it only if it passes
`fmtFieldsOk` (a failed decode is a caught `JSONDecodeError`). -/
def tryCandidate (m : String) : Option (List (String × JValue)) :=
  match jsonLoads m with
  | some (.obj kvs) => if fmtFieldsOk kvs then some kvs else none
  | _ => none

def firstCandidate : List (List Char) → Option (List (String × JValue))
  | [] => none
  | m :: rest =>
      match tryCandidate m.asString with
      | some kvs => some kvs
      | none => firstCandidate rest

/-- The final line scan: strip each line, and try lines that start with `\x7b`
and end with `\x7d`. -/
def extractFromLines : List (List Char) → Option (List (String × JValue))
  | [] => none
  | line :: rest =>
      let l := pyStripL line
      if pyStartsWith l ['{'] && pyEndsWith l ['}'] then
        match tryCandidate l.asString with
        | some kvs => some kvs
        | none => extractFromLines rest
      else extractFromLines rest

/-- `extract_json_structure`: whole-input parse (raising `AttributeError` on a
decoded non-dict), then the two format-literal regexes, then the per-line
scan, defaulting to the empty dict. -/
def extract_json_structure (user_input : String) : Except PyErr (List (String × JValue)) :=
  let step2 : Except PyErr (List (String × JValue)) :=
    match firstCandidate (findAllA user_input.toList) with
    | some kvs => .ok kvs
    | none =>
      match firstCandidate (findAllB user_input.toList) with
      | some kvs => .ok kvs
      | none =>
        match extractFromLines (splitOnChar '\n' (pyStripL user_input.toList)) with
        | some kvs => .ok kvs
        | none => .ok []
  match jsonLoads user_input with
  | some (.obj kvs) => if fmtFieldsOk kvs then .ok kvs else step2
  | some _ => .error (.attributeError "object has no attribute get")
  | none => step2

/-! ### Helper lemmas about the field-coercion loop -/

theorem any_key_eq_lookup_isSome (kvs : List (String × JValue)) (k : String) :
    kvs.any (·.1 == k) = (kvs.lookup k).isSome := by
  induction kvs with
  | nil => simp
  | cons kv rest ih =>
      obtain ⟨k0, v0⟩ := kv
      by_cases h : k0 = k
      · subst h; simp [List.lookup]
      · have h1 : (k0 == k) = false := by simp [h]
        have h2 : (k == k0) = false := by simp [Ne.symm h]
        simp [List.lookup, h1, h2, ih]

/-- A field is safe for coercion when it is not an integer-declared field
holding an infinite float (the one case where `int()` raises an uncaught
`OverflowError`). -/
def fieldSafe (kvs : List (String × JValue)) (kt : String × JValue) : Bool :=
  kt.2 != JValue.str "integer" ||
    (match kvs.lookup kt.1 with
     | some (.float l) => !isInfLit l
     | _ => true)

@[simp] theorem pyBind_ok {α β : Type} (a : α) (f : α → Except PyErr β) :
    (Except.ok a >>= f : Except PyErr β) = f a := rfl

@[simp] theorem pyBind_err {α β : Type} (e : PyErr) (f : α → Except PyErr β) :
    (Except.error e >>= f : Except PyErr β) = .error e := rfl

@[simp] theorem pyPure_eq {α : Type} (a : α) :
    (pure a : Except PyErr α) = .ok a := rfl

theorem coerceValue_ok (ty v : JValue)
    (hsafe : ty = JValue.str "integer" → ∀ l, v = .float l → isInfLit l = false) :
    ∃ w, coerceValue ty v = .ok w := by
  unfold coerceValue
  split
  · exact ⟨_, rfl⟩
  · split
    · rename_i h1 hty
      have hty' : ty = JValue.str "integer" := JValue.eq_of_beq hty
      split
      · exact ⟨_, rfl⟩
      · cases v with
        | float l =>
            have hl := hsafe hty' l rfl
            simp only [pyIntOfJ, hl, Bool.false_eq_true, if_false]
            cases truncOfNumberLit l <;> exact ⟨_, rfl⟩
        | int n => exact ⟨_, rfl⟩
        | bool b => exact ⟨_, rfl⟩
        | str s =>
            simp only [pyIntOfJ]
            cases pyIntOfString s <;> exact ⟨_, rfl⟩
        | null => exact ⟨_, rfl⟩
        | arr xs => exact ⟨_, rfl⟩
        | obj kvs => exact ⟨_, rfl⟩
    · split
      · exact ⟨_, rfl⟩
      · exact ⟨_, rfl⟩

theorem coerceField_obj_ok (kvs : List (String × JValue)) (k : String) (ty : JValue)
    (hsafe : fieldSafe kvs (k, ty) = true) :
    ∃ w, coerceField (.obj kvs) k ty = .ok w := by
  unfold coerceField
  simp only [pyContainsKey, pyBind_ok]
  by_cases hp : kvs.any (·.1 == k) = true
  · simp only [hp, if_true]
    simp only [pyIndexKey, pyBind_ok]
    apply coerceValue_ok
    intro hty l hl
    simp only [fieldSafe, hty] at hsafe
    simp only [bne_self_eq_false, Bool.false_or] at hsafe
    cases hlk : kvs.lookup k with
    | none =>
        rw [any_key_eq_lookup_isSome, hlk] at hp
        simp at hp
    | some w =>
        rw [hlk] at hsafe
        rw [hlk] at hl
        simp only [Option.getD] at hl
        subst hl
        simpa using hsafe
  · simp only [Bool.not_eq_true] at hp
    simp only [hp, if_false, Bool.false_eq_true]
    exact ⟨_, rfl⟩

theorem validateFields_obj_ok (S : List (String × JValue)) (kvs : List (String × JValue))
    (hsafe : ∀ kt ∈ S, fieldSafe kvs kt = true) :
    ∃ d, validateFields (.obj kvs) S = .ok d := by
  induction S with
  | nil => exact ⟨[], rfl⟩
  | cons kt rest ih =>
      obtain ⟨k, ty⟩ := kt
      obtain ⟨w, hw⟩ := coerceField_obj_ok kvs k ty (hsafe _ (by simp))
      obtain ⟨d, hd⟩ := ih (fun kt hkt => hsafe kt (by simp [hkt]))
      exact ⟨(k, w) :: d, by simp [validateFields, hw, hd]⟩

theorem validateFields_keys (S : List (String × JValue)) (parsed : JValue)
    (d : List (String × JValue)) (h : validateFields parsed S = .ok d) :
    d.map Prod.fst = S.map Prod.fst := by
  induction S generalizing d with
  | nil => simp [validateFields] at h; simp [← h]
  | cons kt rest ih =>
      obtain ⟨k, ty⟩ := kt
      simp only [validateFields] at h
      cases hc : coerceField parsed k ty with
      | error e => rw [hc] at h; simp at h
      | ok w =>
          rw [hc] at h
          cases hr : validateFields parsed rest with
          | error e => rw [hr] at h; simp at h
          | ok r =>
              rw [hr] at h
              simp only [pyBind_ok, pyPure_eq, Except.ok.injEq] at h
              subst h
              simp [ih r hr]

/-! ### Claim C1 -/

/-- C1, counterexample: the raw output `["n"]` cleans to itself and decodes to
a list containing the declared field name, so `validate_json_fields` raises a
`TypeError` at the `parsed[field_name]` lookup instead of returning a JSON
string — the claimed for-all-outputs field-set guarantee fails. -/
theorem c1_counterexample :
    normalize "[\"n\"]" (schemaOf [("n", "string")]) =
      .error (.typeError "list indices must be integers or slices, not str") := rfl

/-- C1 (amended): for every schema and every raw output whose cleaned form
either fails to decode or decodes to a JSON object (with no integer-declared
field holding an infinite float), normalization returns the serialization of
an object whose key list is exactly the schema's key list, in declaration
order. -/
theorem c1_fieldset_invariant (S : List (String × String)) (O : String)
    (h : match jsonLoads (clean_json_response O) with
         | none => True
         | some (.obj kvs) => ∀ kt ∈ schemaOf S, fieldSafe kvs kt = true
         | some _ => False) :
    ∃ d, normalize O (schemaOf S) = .ok (py_json_dumps (.obj d)) ∧
      d.map Prod.fst = S.map Prod.fst := by
  unfold normalize validate_json_fields
  cases hp : jsonLoads (clean_json_response O) with
  | none =>
      refine ⟨(schemaOf S).map (fun kt => (kt.1, .null)), rfl, ?_⟩
      simp [schemaOf, Function.comp]
  | some v =>
      rw [hp] at h
      cases v with
      | obj kvs =>
          obtain ⟨d, hd⟩ := validateFields_obj_ok (schemaOf S) kvs h
          refine ⟨d, ?_, ?_⟩
          · simp only [hd]; rfl
          · have := validateFields_keys (schemaOf S) (.obj kvs) d hd
            rw [this]; simp [schemaOf, Function.comp]
      | null => exact absurd h not_false
      | bool b => exact absurd h not_false
      | int n => exact absurd h not_false
      | float l => exact absurd h not_false
      | str s => exact absurd h not_false
      | arr xs => exact absurd h not_false

/-- Witness for C1's amended theorem at a concrete non-JSON output. -/
theorem c1_fieldset_invariant_witness :
    ∃ d, normalize "plain prose" (schemaOf [("a", "string"), ("b", "integer")]) =
        .ok (py_json_dumps (.obj d)) ∧
      d.map Prod.fst = [("a", "string"), ("b", "integer")].map Prod.fst :=
  c1_fieldset_invariant [("a", "string"), ("b", "integer")] "plain prose"
    (by show True; exact trivial)

/-! ### Claim C3 -/

theorem coerceField_obj_present (kvs : List (String × JValue)) (k : String)
    (v ty : JValue) (hlk : kvs.lookup k = some v) :
    coerceField (.obj kvs) k ty = coerceValue ty v := by
  unfold coerceField
  simp only [pyContainsKey, pyBind_ok, any_key_eq_lookup_isSome, hlk,
    Option.isSome_some, if_true, pyIndexKey, Option.getD_some]

theorem coerceField_obj_absent (kvs : List (String × JValue)) (k : String)
    (ty : JValue) (hlk : kvs.any (·.1 == k) = false) :
    coerceField (.obj kvs) k ty = .ok .null := by
  unfold coerceField
  simp only [pyContainsKey, pyBind_ok, hlk, Bool.false_eq_true, if_false]
  rfl

/-- C3, counterexample: `validate_json_fields` has no `number` branch at all
(a `number`-declared field passes through unchanged, never float-converted),
and its `boolean` branch applies Python truthiness `bool(value)` rather than a
truthy-vocabulary test — so the string `"false"` coerces to `true`, where the
claim requires `null`. -/
theorem c3_counterexample :
    normalize "\x7b\"b\": \"false\"\x7d" (schemaOf [("b", "boolean")]) = .ok "\x7b\"b\": true\x7d" ∧
    normalize "\x7b\"x\": \"3.5\"\x7d" (schemaOf [("x", "number")]) = .ok "\x7b\"x\": \"3.5\"\x7d" ∧
    ("\x7b\"b\": true\x7d" : String) ≠ "\x7b\"b\": null\x7d" :=
  ⟨rfl, rfl, by decide⟩

/-- C3 (amended): per-field coercion over a parsed candidate object follows
the declared tag as the code implements it — absent fields become null;
`string` keeps strings and stringifies other non-null values; `integer`
accepts native integers and integer-numeric strings (else null); `boolean`
maps any non-null value to its Python truthiness (so `"false"` becomes true);
every other tag, including `number`, passes the value through unchanged — and
the spec's integer examples hold: `"42"` coerces to `42`, `"abc"` to null. -/
theorem c3_type_coercion :
    (∀ (kvs : List (String × JValue)) (k : String) (ty : JValue),
        kvs.any (·.1 == k) = false → coerceField (.obj kvs) k ty = .ok .null) ∧
    (∀ kvs (k : String) (s : String), kvs.lookup k = some (.str s) →
        coerceField (.obj kvs) k (.str "string") = .ok (.str s)) ∧
    (∀ kvs (k : String) (v : JValue), kvs.lookup k = some v → v ≠ .null →
        (∀ s, v ≠ .str s) →
        coerceField (.obj kvs) k (.str "string") = .ok (.str (pyStrJ v))) ∧
    (∀ kvs (k : String) (n : Int), kvs.lookup k = some (.int n) →
        coerceField (.obj kvs) k (.str "integer") = .ok (.int n)) ∧
    (∀ kvs (k : String) (s : String), kvs.lookup k = some (.str s) →
        coerceField (.obj kvs) k (.str "integer") =
          .ok (match pyIntOfString s with
               | some n => .int n
               | none => .null)) ∧
    (∀ kvs (k : String) (v : JValue), kvs.lookup k = some v → v ≠ .null →
        coerceField (.obj kvs) k (.str "boolean") = .ok (.bool (pyTruthy v))) ∧
    (∀ kvs (k : String) (v : JValue), kvs.lookup k = some v →
        coerceField (.obj kvs) k (.str "number") = .ok v) ∧
    normalize "\x7b\"n\": \"42\"\x7d" (schemaOf [("n", "integer")]) = .ok "\x7b\"n\": 42\x7d" ∧
    normalize "\x7b\"n\": \"abc\"\x7d" (schemaOf [("n", "integer")]) = .ok "\x7b\"n\": null\x7d" := by
  refine ⟨?_, ?_, ?_, ?_, ?_, ?_, ?_, rfl, rfl⟩
  · intro kvs k ty h
    exact coerceField_obj_absent kvs k ty h
  · intro kvs k s h
    rw [coerceField_obj_present kvs k _ _ h]
    rfl
  · intro kvs k v h hnn hns
    rw [coerceField_obj_present kvs k _ _ h]
    unfold coerceValue
    have hmatch : isStrJ v = false := by
      cases v <;> first | rfl | exact absurd rfl (hns _)
    have hnull : (v == JValue.null) = false := by
      cases v <;> first | exact absurd rfl hnn | rfl
    simp [hmatch, hnull]
  · intro kvs k n h
    rw [coerceField_obj_present kvs k _ _ h]
    rfl
  · intro kvs k s h
    rw [coerceField_obj_present kvs k _ _ h]
    unfold coerceValue
    simp only [pyIntOfJ]
    cases pyIntOfString s <;> rfl
  · intro kvs k v h hnn
    rw [coerceField_obj_present kvs k _ _ h]
    unfold coerceValue
    have hmatch : (JValue.str "boolean" == JValue.str "string") = false := by decide
    have hnull : (v == JValue.null) = false := by
      cases v <;> first | exact absurd rfl hnn | rfl
    simp [hmatch, hnull]
  · intro kvs k v h
    rw [coerceField_obj_present kvs k _ _ h]
    rfl

/-- Witness for C3's amended theorem at concrete inputs. -/
theorem c3_type_coercion_witness :
    coerceField (.obj [("x", JValue.int 3)]) "x" (.str "integer") = .ok (.int 3) ∧
    coerceField (.obj [("b", JValue.str "false")]) "b" (.str "boolean") =
      .ok (.bool true) ∧
    coerceField (.obj []) "m" (.str "string") = .ok .null :=
  ⟨c3_type_coercion.2.2.2.1 [("x", JValue.int 3)] "x" 3 rfl,
   by
     have := c3_type_coercion.2.2.2.2.2.1 [("b", JValue.str "false")] "b"
       (JValue.str "false") rfl (by decide)
     simpa using this,
   c3_type_coercion.1 [] "m" (.str "string") rfl⟩

/-! ### Claim C4 -/

/-- C4, counterexample: normalization is not idempotent.  For the schema
`a : string` and the raw output `\x7b"a": "x··· y··· z"\x7d···json` (where `···` is a
triple backtick), the first pass keeps the fenced-looking string value, but
re-normalizing its serialization extracts the text between the two backtick
fences inside the value, fails to parse it, and null-fills. -/
theorem c4_counterexample :
    normalize "\x7b\"a\": \"x``` y``` z\"\x7d```json" (schemaOf [("a", "string")]) =
      .ok "\x7b\"a\": \"x``` y``` z\"\x7d" ∧
    normalize "\x7b\"a\": \"x``` y``` z\"\x7d" (schemaOf [("a", "string")]) =
      .ok "\x7b\"a\": null\x7d" ∧
    ("\x7b\"a\": null\x7d" : String) ≠ "\x7b\"a\": \"x``` y``` z\"\x7d" :=
  ⟨rfl, rfl, by decide⟩

/-! ### Round-trip of `json.dumps` through `json.loads` on safe dictionaries -/

theorem toNat_ofNat_valid (n : Nat) (h : n.isValidChar) : (Char.ofNat n).toNat = n := by
  unfold Char.ofNat
  rw [dif_pos h]
  rfl

theorem digitChar_toNat (n : Nat) (h : n < 10) : (digitChar n).toNat = 48 + n := by
  unfold digitChar
  rw [toNat_ofNat_valid]
  · rfl
  · exact Or.inl (by change 48 + n < 55296; omega)

theorem digitChar_isDigit (n : Nat) (h : n < 10) : isDigitChar (digitChar n) = true := by
  unfold isDigitChar
  rw [digitChar_toNat n h]
  simp; omega

theorem digitVal_digitChar (n : Nat) (h : n < 10) : digitVal (digitChar n) = n := by
  unfold digitVal
  rw [digitChar_toNat n h]
  have h0 : '0'.toNat = 48 := rfl
  rw [h0]
  omega

theorem char_beq_false_of_toNat_ne (a c : Char) (h : a.toNat ≠ c.toNat) :
    (a == c) = false := by
  apply beq_eq_false_iff_ne.mpr
  intro he
  exact h (congrArg Char.toNat he)

theorem digitChar_beq_z (n : Nat) (h1 : n < 10) (h2 : n ≠ 0) :
    (digitChar n == '0') = false := by
  apply char_beq_false_of_toNat_ne
  rw [digitChar_toNat n h1]
  change 48 + n ≠ 48
  omega

theorem natOfDigits_append_one (l : List Char) (d : Char) :
    natOfDigits (l ++ [d]) = natOfDigits l * 10 + digitVal d := by
  simp [natOfDigits, List.foldl_append]

theorem natDigitsAux_spec : ∀ (fuel n : Nat), n < fuel →
    natDigitsAux fuel n ≠ [] ∧
    (∀ c ∈ natDigitsAux fuel n, isDigitChar c = true) ∧
    natOfDigits (natDigitsAux fuel n) = n := by
  intro fuel
  induction fuel with
  | zero => omega
  | succ f ih =>
      intro n hn
      unfold natDigitsAux
      by_cases h10 : n < 10
      · simp only [h10, if_true]
        refine ⟨by simp, ?_, ?_⟩
        · intro c hc
          simp at hc
          subst hc
          exact digitChar_isDigit n h10
        · simp [natOfDigits, digitVal_digitChar n h10]
      · simp only [h10, if_false]
        have hlt : n / 10 < f := by omega
        obtain ⟨hne, hdig, hval⟩ := ih (n / 10) hlt
        refine ⟨by simp, ?_, ?_⟩
        · intro c hc
          simp at hc
          rcases hc with hc | hc
          · exact hdig c hc
          · subst hc; exact digitChar_isDigit _ (by omega)
        · rw [natOfDigits_append_one, hval, digitVal_digitChar _ (by omega)]
          omega

theorem natDigitsAux_head_nz : ∀ (fuel n : Nat), n < fuel → 1 ≤ n →
    ((natDigitsAux fuel n).headD '0' == '0') = false := by
  intro fuel
  induction fuel with
  | zero => omega
  | succ f ih =>
      intro n hn h1
      unfold natDigitsAux
      by_cases h10 : n < 10
      · simp only [h10, if_true, List.headD_cons]
        exact digitChar_beq_z n h10 (by omega)
      · simp only [h10, if_false]
        have hne := (natDigitsAux_spec f (n / 10) (by omega)).1
        cases hh : natDigitsAux f (n / 10) with
        | nil => exact absurd hh hne
        | cons a l =>
            have := ih (n / 10) (by omega) (by omega)
            rw [hh] at this
            simpa using this

theorem takeDigitRun_exact (l rest : List Char)
    (hl : ∀ c ∈ l, isDigitChar c = true)
    (hr : match rest with | [] => True | c :: _ => isDigitChar c = false) :
    takeDigitRun (l ++ rest) = (l, rest) := by
  induction l with
  | nil =>
      cases rest with
      | nil => rfl
      | cons c r =>
          simp only [List.nil_append, takeDigitRun]
          simp only at hr
          simp [hr]
  | cons c l' ih =>
      have hc := hl c (by simp)
      simp only [List.cons_append, takeDigitRun, hc, if_true, List.append_eq]
      rw [ih (fun x hx => hl x (by simp [hx]))]

theorem intRepr_digits (n : Nat) :
    intRepr (Int.ofNat n) = natDigits n ∧
    natDigits n ≠ [] ∧ (∀ c ∈ natDigits n, isDigitChar c = true) ∧
    natOfDigits (natDigits n) = n := by
  have h := natDigitsAux_spec (n + 1) n (by omega)
  refine ⟨?_, h.1, h.2.1, h.2.2⟩
  unfold intRepr
  simp

theorem parseJNumBody_natDigits (neg : Bool) (m : Nat) (rest : List Char)
    (hb : numBoundary rest) :
    parseJNumBody neg (natDigits m ++ rest) =
      some (.int (if neg then -(Int.ofNat m) else Int.ofNat m), rest) := by
  obtain ⟨hne, hdig, hval⟩ := (intRepr_digits m).2
  unfold parseJNumBody
  cases hD : natDigits m with
  | nil => exact absurd hD hne
  | cons d ds =>
      rw [hD] at hdig hval
      have hd0 := hdig d (by simp)
      simp only [List.cons_append]
      simp only [hd0, Bool.not_true, Bool.false_eq_true, if_false]
      have htake : takeDigitRun (d :: ds ++ rest) = (d :: ds, rest) := by
        rw [show d :: ds ++ rest = (d :: ds) ++ rest from rfl]
        apply takeDigitRun_exact _ _ hdig
        cases rest with
        | nil => trivial
        | cons c r => exact hb.1
      simp only [List.cons_append] at htake
      simp only [htake]
      have hlz : ((d :: ds).length > 1 && (d :: ds).headD '0' == '0') = false := by
        by_cases hds : ds = []
        · subst hds; simp
        · have hm : 1 ≤ m := by
            rcases Nat.eq_zero_or_pos m with h0 | h1
            · subst h0
              have h00 : natDigits 0 = [digitChar 0] := rfl
              rw [h00] at hD
              cases hD
              simp at hds
            · exact h1
          have hz := natDigitsAux_head_nz (m + 1) m (by omega) hm
          unfold natDigits at hD
          rw [hD] at hz
          simp only [List.headD_cons] at hz
          simp [hz]
      rw [hlz]
      simp only [Bool.false_eq_true, if_false]
      have hfrac : numFracPart rest = some ([], rest) := by
        cases rest with
        | nil => rfl
        | cons c r =>
            obtain ⟨_, hdot, _, _⟩ := hb
            have hcd : (c == '.') = false := by simp [hdot]
            simp [numFracPart, hcd]
      rw [hfrac]
      have hexp : numExpPart rest = some ([], rest, false) := by
        cases rest with
        | nil => rfl
        | cons c r =>
            obtain ⟨_, _, he, hE⟩ := hb
            have h1 : (c == 'e') = false := by simp [he]
            have h2 : (c == 'E') = false := by simp [hE]
            simp [numExpPart, h1, h2]
      simp only [hexp]
      simp [hval]

theorem parseJNum_intRepr (n : Int) (rest : List Char) (hb : numBoundary rest) :
    parseJNum (intRepr n ++ rest) = some (.int n, rest) := by
  rcases n with m | m
  · rw [(intRepr_digits m).1]
    obtain ⟨hne, hdig, _⟩ := (intRepr_digits m).2
    unfold parseJNum
    cases hD : natDigits m with
    | nil => exact absurd hD hne
    | cons d ds =>
        have hd0 : isDigitChar d = true := by
          apply hdig; rw [hD]; simp
        have hdm : (d == '-') = false := by
          apply char_beq_false_of_toNat_ne
          unfold isDigitChar at hd0
          simp at hd0
          change d.toNat ≠ 45
          omega
        simp only [List.cons_append, hdm, if_false]
        rw [← List.cons_append, ← hD]
        simpa using parseJNumBody_natDigits false m rest hb
  · have hir : intRepr (Int.negSucc m) = '-' :: natDigits (m + 1) := by
      unfold intRepr
      rw [if_pos (Int.negSucc_lt_zero m)]
      rfl
    rw [hir]
    unfold parseJNum
    simp only [List.cons_append]
    have hmm : (('-' : Char) == '-') = true := by decide
    simp only [hmm, if_true]
    rw [parseJNumBody_natDigits true (m + 1) rest hb]
    simp [Int.negSucc_eq]

theorem safeChar_spec (c : Char) (h : safeChar c = true) :
    32 ≤ c.toNat ∧ c.toNat ≤ 126 ∧ c ≠ '"' ∧ c ≠ '\\' ∧ c ≠ '{' ∧ c ≠ '}' ∧
      c.toNat ≠ 96 := by
  unfold safeChar at h
  simp only [Bool.and_eq_true, bne_iff_ne, decide_eq_true_eq] at h
  exact ⟨h.1.1.1.1.1.1, h.1.1.1.1.1.2, h.1.1.1.1.2, h.1.1.1.2, h.1.1.2, h.1.2, h.2⟩

theorem jsonEscapeChar_safe (c : Char) (h : safeChar c = true) :
    jsonEscapeChar c = [c] := by
  obtain ⟨hlo, hhi, hq, hbs, _, _, _⟩ := safeChar_spec c h
  unfold jsonEscapeChar
  have e1 : (c == '"') = false := beq_eq_false_iff_ne.mpr hq
  have e2 : (c == '\\') = false := beq_eq_false_iff_ne.mpr hbs
  have e3 : (c == '\n') = false := by
    apply char_beq_false_of_toNat_ne
    rw [show '\n'.toNat = 10 from rfl]
    omega
  have e4 : (c == '\r') = false := by
    apply char_beq_false_of_toNat_ne
    rw [show '\r'.toNat = 13 from rfl]
    omega
  have e5 : (c == '\t') = false := by
    apply char_beq_false_of_toNat_ne
    rw [show '\t'.toNat = 9 from rfl]
    omega
  have e6 : (c.toNat == 8) = false := by simp; omega
  have e7 : (c.toNat == 12) = false := by simp; omega
  simp only [e1, e2, e3, e4, e5, e6, e7, Bool.false_eq_true, if_false]
  rw [if_neg (by omega), if_pos (by omega)]

theorem jsonEscape_safe (l : List Char) (h : ∀ c ∈ l, safeChar c = true) :
    jsonEscape l = l := by
  induction l with
  | nil => rfl
  | cons c l' ih =>
      unfold jsonEscape
      simp only [List.flatMap_cons]
      rw [jsonEscapeChar_safe c (h c (by simp))]
      have := ih (fun x hx => h x (by simp [hx]))
      unfold jsonEscape at this
      rw [this]
      rfl

theorem parseJStr_safe : ∀ (k : List Char) (fuel : Nat) (acc rest : List Char),
    k.length < fuel → (∀ c ∈ k, safeChar c = true) →
    parseJStr fuel acc (k ++ '"' :: rest) = some ((acc.reverse ++ k).asString, rest) := by
  intro k
  induction k with
  | nil =>
      intro fuel acc rest hf _
      cases fuel with
      | zero => omega
      | succ f =>
          simp only [List.nil_append, parseJStr]
          rw [if_pos (by rfl)]
          simp
  | cons c k' ih =>
      intro fuel acc rest hf hsafe
      cases fuel with
      | zero => simp at hf
      | succ f =>
          obtain ⟨hlo, _, hq, hbs, _, _, _⟩ := safeChar_spec c (hsafe c (by simp))
          have e1 : (c == '"') = false := beq_eq_false_iff_ne.mpr hq
          have e2 : (c == '\\') = false := beq_eq_false_iff_ne.mpr hbs
          simp only [List.cons_append, parseJStr, e1, e2, Bool.false_eq_true, if_false]
          rw [if_neg (by omega)]
          rw [ih f (c :: acc) rest (by simp at hf ⊢; omega)
            (fun x hx => hsafe x (by simp [hx]))]
          simp

theorem headMatches_first_false (p : Char) (ps : List Char) (c : Char) (cs : List Char)
    (h : (p == c) = false) : headMatches (p :: ps) (c :: cs) = false := by
  simp [headMatches, h]

theorem jsonWs_false_of_printable (c : Char) (h : 33 ≤ c.toNat) : jsonWs c = false := by
  unfold jsonWs
  have e1 : (c == ' ') = false := by
    apply char_beq_false_of_toNat_ne; rw [show ' '.toNat = 32 from rfl]; omega
  have e2 : (c == '\t') = false := by
    apply char_beq_false_of_toNat_ne; rw [show '\t'.toNat = 9 from rfl]; omega
  have e3 : (c == '\n') = false := by
    apply char_beq_false_of_toNat_ne; rw [show '\n'.toNat = 10 from rfl]; omega
  have e4 : (c == '\r') = false := by
    apply char_beq_false_of_toNat_ne; rw [show '\r'.toNat = 13 from rfl]; omega
  simp [e1, e2, e3, e4]

theorem skipJsonWs_cons_nonws (c : Char) (cs : List Char) (h : jsonWs c = false) :
    skipJsonWs (c :: cs) = c :: cs := by
  simp [skipJsonWs, List.dropWhile, h]

theorem skipJsonWs_space (cs : List Char) : skipJsonWs (' ' :: cs) = skipJsonWs cs := rfl

theorem intRepr_head_digit_or_minus (n : Int) :
    ∃ c cs, intRepr n = c :: cs ∧ (isDigitChar c = true ∨ c = '-') := by
  rcases n with m | m
  · rw [(intRepr_digits m).1]
    obtain ⟨hne, hdig, _⟩ := (intRepr_digits m).2
    cases hD : natDigits m with
    | nil => exact absurd hD hne
    | cons d ds => exact ⟨d, ds, rfl, Or.inl (hdig d (by rw [hD]; simp))⟩
  · refine ⟨'-', natDigits (m + 1), ?_, Or.inr rfl⟩
    unfold intRepr
    rw [if_pos (Int.negSucc_lt_zero m)]
    rfl

theorem asString_data (s : String) : s.data.asString = s := rfl

/-- The serialization of a flat safe value parses back to it, for any fuel. -/
theorem parseJVal_flat (v : JValue) (hv : flatSafe v = true) (fuel : Nat)
    (rest : List Char) (hb : numBoundary rest) :
    parseJVal (fuel + 1) (dumpJ v ++ rest) = some (v, rest) := by
  cases v with
  | float l => simp [flatSafe] at hv
  | arr xs => simp [flatSafe] at hv
  | obj kvs => simp [flatSafe] at hv
  | null => rfl
  | bool b => cases b <;> rfl
  | str s =>
      have hsafe : ∀ c ∈ s.toList, safeChar c = true := by
        unfold flatSafe at hv
        simpa [List.all_eq_true] using hv
      show parseJVal (fuel + 1) (('"' :: (jsonEscape s.toList ++ ['"'])) ++ rest) = _
      rw [jsonEscape_safe s.toList hsafe]
      have hassoc : ('"' :: (s.toList ++ ['"'])) ++ rest =
          '"' :: (s.toList ++ '"' :: rest) := by simp
      rw [hassoc]
      show (match parseJStr ((s.toList ++ '"' :: rest).length + 1) [] (s.toList ++ '"' :: rest)
              with
            | some (t, r') => some (JValue.str t, r')
            | none => none) = some (JValue.str s, rest)
      rw [parseJStr_safe s.toList _ [] rest (by simp; omega) hsafe]
      simp [asString_data]
  | int n =>
      show parseJVal (fuel + 1) (intRepr n ++ rest) = _
      unfold parseJVal
      rcases n with m | m
      · rw [(intRepr_digits m).1]
        obtain ⟨hne, hdig, _⟩ := (intRepr_digits m).2
        cases hD : natDigits m with
        | nil => exact absurd hD hne
        | cons c cs =>
            have hct : 48 ≤ c.toNat ∧ c.toNat ≤ 57 := by
              have := hdig c (by rw [hD]; simp)
              unfold isDigitChar at this
              simpa using this
            have hfirst : ∀ (p : Char), p.toNat ≠ c.toNat → (p == c) = false := fun p hp =>
              char_beq_false_of_toNat_ne p c hp
            simp only [List.cons_append]
            rw [show ("null".toList : List Char) = 'n' :: "ull".toList from rfl,
              headMatches_first_false _ _ _ _
                (hfirst 'n' (by rw [show 'n'.toNat = 110 from rfl]; omega))]
            rw [show ("true".toList : List Char) = 't' :: "rue".toList from rfl,
              headMatches_first_false _ _ _ _
                (hfirst 't' (by rw [show 't'.toNat = 116 from rfl]; omega))]
            rw [show ("false".toList : List Char) = 'f' :: "alse".toList from rfl,
              headMatches_first_false _ _ _ _
                (hfirst 'f' (by rw [show 'f'.toNat = 102 from rfl]; omega))]
            rw [show ("NaN".toList : List Char) = 'N' :: "aN".toList from rfl,
              headMatches_first_false _ _ _ _
                (hfirst 'N' (by rw [show 'N'.toNat = 78 from rfl]; omega))]
            rw [show ("Infinity".toList : List Char) = 'I' :: "nfinity".toList from rfl,
              headMatches_first_false _ _ _ _
                (hfirst 'I' (by rw [show 'I'.toNat = 73 from rfl]; omega))]
            rw [show ("-Infinity".toList : List Char) = '-' :: "Infinity".toList from rfl,
              headMatches_first_false _ _ _ _
                (hfirst '-' (by rw [show '-'.toNat = 45 from rfl]; omega))]
            simp only [Bool.false_eq_true, if_false]
            have g1 : (c == '"') = false :=
              char_beq_false_of_toNat_ne c '"' (by rw [show '"'.toNat = 34 from rfl]; omega)
            have g2 : (c == '[') = false :=
              char_beq_false_of_toNat_ne c '[' (by rw [show '['.toNat = 91 from rfl]; omega)
            have g3 : (c == '{') = false :=
              char_beq_false_of_toNat_ne c '{' (by rw [show '{'.toNat = 123 from rfl]; omega)
            simp only [g1, g2, g3, Bool.false_eq_true, if_false]
            rw [← List.cons_append, ← hD]
            have h := parseJNum_intRepr (Int.ofNat m) rest hb
            rw [(intRepr_digits m).1] at h
            exact h
      · have hir : intRepr (Int.negSucc m) = '-' :: natDigits (m + 1) := by
          unfold intRepr
          rw [if_pos (Int.negSucc_lt_zero m)]
          rfl
        rw [hir]
        obtain ⟨hne, hdig, _⟩ := (intRepr_digits (m + 1)).2
        cases hD : natDigits (m + 1) with
        | nil => exact absurd hD hne
        | cons c cs =>
            have hct : 48 ≤ c.toNat ∧ c.toNat ≤ 57 := by
              have := hdig c (by rw [hD]; simp)
              unfold isDigitChar at this
              simpa using this
            simp only [List.cons_append]
            rw [show ("null".toList : List Char) = 'n' :: "ull".toList from rfl,
              headMatches_first_false _ _ _ _ (by decide)]
            rw [show ("true".toList : List Char) = 't' :: "rue".toList from rfl,
              headMatches_first_false _ _ _ _ (by decide)]
            rw [show ("false".toList : List Char) = 'f' :: "alse".toList from rfl,
              headMatches_first_false _ _ _ _ (by decide)]
            rw [show ("NaN".toList : List Char) = 'N' :: "aN".toList from rfl,
              headMatches_first_false _ _ _ _ (by decide)]
            rw [show ("Infinity".toList : List Char) = 'I' :: "nfinity".toList from rfl,
              headMatches_first_false _ _ _ _ (by decide)]
            have hInf : headMatches ("-Infinity".toList : List Char)
                ('-' :: c :: (cs ++ rest)) = false := by
              rw [show ("-Infinity".toList : List Char) = '-' :: 'I' :: "nfinity".toList from rfl]
              have hIc : (('I' : Char) == c) = false :=
                char_beq_false_of_toNat_ne 'I' c
                  (by rw [show 'I'.toNat = 73 from rfl]; omega)
              simp [headMatches, hIc]
            rw [hInf]
            simp only [Bool.false_eq_true, if_false]
            have g1 : (('-' : Char) == '"') = false := by decide
            have g2 : (('-' : Char) == '[') = false := by decide
            have g3 : (('-' : Char) == '{') = false := by decide
            simp only [g1, g2, g3, Bool.false_eq_true, if_false]
            rw [← List.cons_append, ← List.cons_append, ← hD, ← hir]
            exact parseJNum_intRepr (Int.negSucc m) rest hb

theorem safeKVs_cons (k : String) (v : JValue) (d : List (String × JValue))
    (h : safeKVs ((k, v) :: d) = true) :
    (∀ c ∈ k.toList, safeChar c = true) ∧ flatSafe v = true ∧ safeKVs d = true := by
  unfold safeKVs at h ⊢
  simp only [List.all_cons, Bool.and_eq_true] at h
  exact ⟨by simpa [List.all_eq_true] using h.1.1, h.1.2, h.2⟩

theorem skip_dumpJ_flat (v : JValue) (hv : flatSafe v = true) (rest : List Char) :
    skipJsonWs (dumpJ v ++ rest) = dumpJ v ++ rest := by
  cases v with
  | float l => simp [flatSafe] at hv
  | arr xs => simp [flatSafe] at hv
  | obj kvs => simp [flatSafe] at hv
  | null => rfl
  | bool b => cases b <;> rfl
  | str s => rfl
  | int n =>
      obtain ⟨c, cs, hic, hcd⟩ := intRepr_head_digit_or_minus n
      show skipJsonWs (intRepr n ++ rest) = intRepr n ++ rest
      rw [hic]
      simp only [List.cons_append]
      apply skipJsonWs_cons_nonws
      rcases hcd with hdig | hneg
      · apply jsonWs_false_of_printable
        unfold isDigitChar at hdig
        simp at hdig
        omega
      · subst hneg; decide

theorem dumpMembers_head (d : List (String × JValue)) (hne : d ≠ []) :
    ∃ t, dumpMembers d = '"' :: t := by
  match d with
  | [] => exact absurd rfl hne
  | [(k, v)] => exact ⟨_, rfl⟩
  | (k, v) :: m :: ms => exact ⟨_, rfl⟩

theorem numBoundary_close (r : List Char) : numBoundary ('}' :: r) :=
  ⟨by decide, by decide, by decide, by decide⟩

theorem numBoundary_comma (r : List Char) : numBoundary (',' :: r) :=
  ⟨by decide, by decide, by decide, by decide⟩

theorem parseJMembers_dump :
    ∀ (d : List (String × JValue)) (fuel : Nat) (rest : List Char),
      d ≠ [] → safeKVs d = true → d.length ≤ fuel →
      parseJMembers (fuel + 1) (dumpMembers d ++ '}' :: rest) = some (d, rest) := by
  intro d
  induction d with
  | nil => intro fuel rest hne; exact absurd rfl hne
  | cons kv d' ih =>
      intro fuel rest _ hsafe hlen
      obtain ⟨k, v⟩ := kv
      obtain ⟨hk, hv, hd'⟩ := safeKVs_cons k v d' hsafe
      cases fuel with
      | zero => simp at hlen
      | succ f =>
          cases hd : d' with
          | nil =>
              show parseJMembers (f + 1 + 1)
                (('"' :: (jsonEscape k.toList ++ '"' :: ':' :: ' ' :: dumpJ v)) ++
                  '}' :: rest) = _
              rw [jsonEscape_safe k.toList hk]
              simp only [List.cons_append, List.append_assoc]
              rw [parseJMembers]
              rw [if_pos (show (('"' : Char) == '"') = true from rfl)]
              rw [parseJStr_safe k.toList _ [] _ (by simp; omega) hk]
              dsimp only
              rw [skipJsonWs_cons_nonws ':' _ (by decide)]
              dsimp only
              rw [if_pos (show ((':' : Char) == ':') = true from rfl)]
              rw [skipJsonWs_space]
              rw [skip_dumpJ_flat v hv]
              cases f with
              | zero =>
                  rw [parseJVal_flat v hv 0 ('}' :: rest) (numBoundary_close rest)]
                  dsimp only
                  rw [skipJsonWs_cons_nonws '}' _ (by decide)]
                  dsimp only
                  rw [show (('}' : Char) == ',') = false by decide]
                  simp only [Bool.false_eq_true, if_false]
                  rw [if_pos (show (('}' : Char) == '}') = true from rfl)]
                  simp [asString_data]
              | succ g =>
                  rw [parseJVal_flat v hv (g + 1) ('}' :: rest) (numBoundary_close rest)]
                  dsimp only
                  rw [skipJsonWs_cons_nonws '}' _ (by decide)]
                  dsimp only
                  rw [show (('}' : Char) == ',') = false by decide]
                  simp only [Bool.false_eq_true, if_false]
                  rw [if_pos (show (('}' : Char) == '}') = true from rfl)]
                  simp [asString_data]
          | cons m ms =>
              show parseJMembers (f + 1 + 1)
                ((('"' :: (jsonEscape k.toList ++ '"' :: ':' :: ' ' :: dumpJ v)) ++
                  ',' :: ' ' :: dumpMembers (m :: ms)) ++ '}' :: rest) = _
              rw [jsonEscape_safe k.toList hk]
              simp only [List.cons_append, List.append_assoc]
              rw [parseJMembers]
              rw [if_pos (show (('"' : Char) == '"') = true from rfl)]
              rw [parseJStr_safe k.toList _ [] _ (by simp; omega) hk]
              dsimp only
              rw [skipJsonWs_cons_nonws ':' _ (by decide)]
              dsimp only
              rw [if_pos (show ((':' : Char) == ':') = true from rfl)]
              rw [skipJsonWs_space]
              rw [skip_dumpJ_flat v hv]
              cases f with
              | zero =>
                  rw [hd] at hlen
                  simp at hlen
              | succ g =>
                  rw [parseJVal_flat v hv (g + 1) _ (numBoundary_comma _)]
                  dsimp only
                  rw [skipJsonWs_cons_nonws ',' _ (by decide)]
                  dsimp only
                  rw [if_pos (show ((',' : Char) == ',') = true from rfl)]
                  rw [skipJsonWs_space]
                  obtain ⟨t, ht⟩ := dumpMembers_head (m :: ms) (by simp)
                  rw [ht]
                  rw [List.cons_append]
                  rw [skipJsonWs_cons_nonws '"' _ (by decide)]
                  rw [← List.cons_append, ← ht, ← hd]
                  have hlen' : d'.length ≤ g + 1 := by
                    simp only [List.length_cons] at hlen
                    omega
                  rw [ih (g + 1) rest (by rw [hd]; simp) hd' hlen']
                  simp [asString_data]

theorem dictUpsert_append (acc : List (String × JValue)) (k : String) (v : JValue)
    (h : ∀ kv ∈ acc, kv.1 ≠ k) : dictUpsert acc k v = acc ++ [(k, v)] := by
  induction acc with
  | nil => rfl
  | cons kv0 rest ih =>
      obtain ⟨k0, v0⟩ := kv0
      have hne : (k0 == k) = false := beq_eq_false_iff_ne.mpr (h (k0, v0) (by simp))
      simp only [dictUpsert, hne, Bool.false_eq_true, if_false, List.cons_append]
      rw [ih (fun kv hkv => h kv (by simp [hkv]))]

theorem dictOfPairs_eq_self (d : List (String × JValue))
    (hnd : (d.map Prod.fst).Nodup) : dictOfPairs d = d := by
  suffices h : ∀ (rest acc : List (String × JValue)),
      ((acc ++ rest).map Prod.fst).Nodup →
      rest.foldl (fun a kv => dictUpsert a kv.1 kv.2) acc = acc ++ rest by
    have := h d [] (by simpa using hnd)
    simpa [dictOfPairs] using this
  intro rest
  induction rest with
  | nil => intro acc _; simp
  | cons kv rest' ih =>
      intro acc hnd'
      obtain ⟨k, v⟩ := kv
      simp only [List.foldl_cons]
      have hk : ∀ kv0 ∈ acc, kv0.1 ≠ k := by
        intro kv0 hkv0 he
        have h1 : k ∈ (acc.map Prod.fst) := he ▸ List.mem_map_of_mem Prod.fst hkv0
        have h2 : k ∈ ((k, v) :: rest').map Prod.fst := by simp
        rw [List.map_append] at hnd'
        exact (List.nodup_append.mp hnd').2.2 h1 h2
      rw [dictUpsert_append acc k v hk]
      have := ih (acc ++ [(k, v)]) (by simpa using hnd')
      simpa using this

theorem dumpMembers_length_ge (d : List (String × JValue)) :
    d.length ≤ (dumpMembers d).length := by
  induction d with
  | nil => simp [dumpMembers]
  | cons kv0 d0 ih0 =>
      obtain ⟨k0, v0⟩ := kv0
      cases d0 with
      | nil => simp [dumpMembers]
      | cons m0 ms0 =>
          simp only [dumpMembers, List.length_cons, List.length_append] at *
          omega

/-- `json.loads` inverts `json.dumps` on safe dictionaries with distinct
keys. -/
theorem jsonLoads_dump_obj (d : List (String × JValue)) (hs : safeKVs d = true)
    (hnd : (d.map Prod.fst).Nodup) :
    jsonLoads (py_json_dumps (.obj d)) = some (.obj d) := by
  unfold jsonLoads py_json_dumps
  rw [show (dumpJ (.obj d)).asString.toList = dumpJ (.obj d) from rfl]
  cases hd : d with
  | nil => rfl
  | cons kv d' =>
      rw [← hd]
      have hdm : dumpJ (.obj d) = '{' :: (dumpMembers d ++ ['}']) := rfl
      rw [hdm]
      rw [skipJsonWs_cons_nonws '{' _ (by decide)]
      have hv : parseJVal (('{' :: (dumpMembers d ++ ['}'])).length + 1)
          ('{' :: (dumpMembers d ++ ['}'])) = some (.obj d, []) := by
        have hlen : ('{' :: (dumpMembers d ++ ['}'])).length + 1 =
            (dumpMembers d).length + 1 + 1 + 1 := by simp
        rw [hlen]
        unfold parseJVal
        rw [show headMatches "null".toList ('{' :: (dumpMembers d ++ ['}'])) = false by
          rw [show ("null".toList : List Char) = 'n' :: "ull".toList from rfl]
          exact headMatches_first_false _ _ _ _ (by decide)]
        rw [show headMatches "true".toList ('{' :: (dumpMembers d ++ ['}'])) = false by
          rw [show ("true".toList : List Char) = 't' :: "rue".toList from rfl]
          exact headMatches_first_false _ _ _ _ (by decide)]
        rw [show headMatches "false".toList ('{' :: (dumpMembers d ++ ['}'])) = false by
          rw [show ("false".toList : List Char) = 'f' :: "alse".toList from rfl]
          exact headMatches_first_false _ _ _ _ (by decide)]
        rw [show headMatches "NaN".toList ('{' :: (dumpMembers d ++ ['}'])) = false by
          rw [show ("NaN".toList : List Char) = 'N' :: "aN".toList from rfl]
          exact headMatches_first_false _ _ _ _ (by decide)]
        rw [show headMatches "Infinity".toList ('{' :: (dumpMembers d ++ ['}'])) = false by
          rw [show ("Infinity".toList : List Char) = 'I' :: "nfinity".toList from rfl]
          exact headMatches_first_false _ _ _ _ (by decide)]
        rw [show headMatches "-Infinity".toList ('{' :: (dumpMembers d ++ ['}'])) = false by
          rw [show ("-Infinity".toList : List Char) = '-' :: "Infinity".toList from rfl]
          exact headMatches_first_false _ _ _ _ (by decide)]
        simp only [Bool.false_eq_true, if_false]
        rw [show (('{' : Char) == '"') = false by decide]
        rw [show (('{' : Char) == '[') = false by decide]
        rw [show (('{' : Char) == '{') = true by decide]
        simp only [Bool.false_eq_true, if_false, if_true]
        obtain ⟨t, ht⟩ := dumpMembers_head d (by rw [hd]; simp)
        rw [show dumpMembers d ++ ['}'] = dumpMembers d ++ '}' :: ([] : List Char) from rfl]
        rw [ht]
        rw [List.cons_append]
        rw [skipJsonWs_cons_nonws '"' _ (by decide)]
        dsimp only
        rw [show (('"' : Char) == '}') = false by decide]
        simp only [Bool.false_eq_true, if_false]
        rw [← List.cons_append, ← ht]
        have hM := parseJMembers_dump d ((dumpMembers d).length + 1) [] (by rw [hd]; simp)
          hs (le_trans (dumpMembers_length_ge d) (by omega))
        rw [hM]
        dsimp only
        rw [dictOfPairs_eq_self d hnd]
      dsimp only
      rw [hv]
      rfl

/-! ### `clean_json_response` is the identity on serialized safe dictionaries -/

/-- Characters that can appear anywhere in the `json.dumps` output of a safe
dictionary: printable ASCII, no braces, no backtick (code point 96). -/
def midChar (c : Char) : Bool :=
  32 ≤ c.toNat && c.toNat ≤ 126 && c != '{' && c != '}' && c.toNat != 96

theorem midChar_spec (c : Char) (h : midChar c = true) :
    32 ≤ c.toNat ∧ c.toNat ≤ 126 ∧ c ≠ '{' ∧ c ≠ '}' ∧ c.toNat ≠ 96 := by
  unfold midChar at h
  simp only [Bool.and_eq_true, bne_iff_ne, decide_eq_true_eq] at h
  exact ⟨h.1.1.1.1, h.1.1.1.2, h.1.1.2, h.1.2, h.2⟩

theorem midChar_of_safeChar (c : Char) (h : safeChar c = true) : midChar c = true := by
  obtain ⟨h1, h2, _, _, h5, h6, h7⟩ := safeChar_spec c h
  unfold midChar
  simp only [Bool.and_eq_true, bne_iff_ne, decide_eq_true_eq]
  exact ⟨⟨⟨⟨h1, h2⟩, h5⟩, h6⟩, h7⟩

theorem midChar_of_digit (c : Char) (h : isDigitChar c = true) : midChar c = true := by
  have h1 : 48 ≤ c.toNat ∧ c.toNat ≤ 57 := by
    unfold isDigitChar at h
    simpa using h
  unfold midChar
  simp only [Bool.and_eq_true, bne_iff_ne, decide_eq_true_eq]
  refine ⟨⟨⟨⟨by omega, by omega⟩, ?_⟩, ?_⟩, by omega⟩
  · intro he
    rw [he, show Char.toNat '{' = 123 from rfl] at h1
    omega
  · intro he
    rw [he, show Char.toNat '}' = 125 from rfl] at h1
    omega

/-- Every character of the serialization of a flat safe value is a `midChar`. -/
theorem dumpJ_flat_mid (v : JValue) (hv : flatSafe v = true) :
    ∀ c ∈ dumpJ v, midChar c = true := by
  cases v with
  | float l => simp [flatSafe] at hv
  | arr xs => simp [flatSafe] at hv
  | obj kvs => simp [flatSafe] at hv
  | null =>
      intro c hc
      rw [show dumpJ .null = ['n', 'u', 'l', 'l'] from rfl] at hc
      fin_cases hc <;> decide
  | bool b =>
      cases b with
      | true =>
          intro c hc
          rw [show dumpJ (.bool true) = ['t', 'r', 'u', 'e'] from rfl] at hc
          fin_cases hc <;> decide
      | false =>
          intro c hc
          rw [show dumpJ (.bool false) = ['f', 'a', 'l', 's', 'e'] from rfl] at hc
          fin_cases hc <;> decide
  | int n =>
      intro c hc
      rw [show dumpJ (.int n) = intRepr n from rfl] at hc
      rcases n with m | m
      · rw [(intRepr_digits m).1] at hc
        exact midChar_of_digit c ((intRepr_digits m).2.2.1 c hc)
      · rw [show intRepr (Int.negSucc m) = '-' :: natDigits (m + 1) from by
          unfold intRepr
          rw [if_pos (Int.negSucc_lt_zero m)]
          rfl] at hc
        rcases List.mem_cons.mp hc with rfl | hc
        · decide
        · exact midChar_of_digit c ((intRepr_digits (m + 1)).2.2.1 c hc)
  | str t =>
      intro c hc
      have hall : ∀ x ∈ t.toList, safeChar x = true := by
        simpa [flatSafe, List.all_eq_true] using hv
      rw [show dumpJ (.str t) = '"' :: (jsonEscape t.toList ++ ['"']) from rfl] at hc
      rw [jsonEscape_safe t.toList hall] at hc
      rcases List.mem_cons.mp hc with rfl | hc
      · decide
      rcases List.mem_append.mp hc with hc | hc
      · exact midChar_of_safeChar c (hall c hc)
      · rw [List.mem_singleton] at hc
        subst hc
        decide

theorem mem_dumpMember_mid (k : String) (v : JValue) (c : Char)
    (hk : ∀ x ∈ k.toList, safeChar x = true) (hv : flatSafe v = true)
    (hc : c ∈ '"' :: (jsonEscape k.toList ++ '"' :: ':' :: ' ' :: dumpJ v)) :
    midChar c = true := by
  rcases List.mem_cons.mp hc with rfl | hc
  · decide
  rw [jsonEscape_safe k.toList hk] at hc
  rcases List.mem_append.mp hc with hc | hc
  · exact midChar_of_safeChar c (hk c hc)
  rcases List.mem_cons.mp hc with rfl | hc
  · decide
  rcases List.mem_cons.mp hc with rfl | hc
  · decide
  rcases List.mem_cons.mp hc with rfl | hc
  · decide
  · exact dumpJ_flat_mid v hv c hc

/-- Every character of `dumpMembers` of a safe dictionary is a `midChar`:
in particular the body of the serialization has no brace and no backtick. -/
theorem dumpMembers_mid (d : List (String × JValue)) (hs : safeKVs d = true) :
    ∀ c ∈ dumpMembers d, midChar c = true := by
  induction d with
  | nil =>
      intro c hc
      simp [dumpMembers] at hc
  | cons kv d' ih =>
      intro c hc
      obtain ⟨k, v⟩ := kv
      obtain ⟨hk, hv, hd'⟩ := safeKVs_cons k v d' hs
      cases d' with
      | nil =>
          rw [show dumpMembers [(k, v)] =
            '"' :: (jsonEscape k.toList ++ '"' :: ':' :: ' ' :: dumpJ v) from rfl] at hc
          exact mem_dumpMember_mid k v c hk hv hc
      | cons m ms =>
          rw [show dumpMembers ((k, v) :: m :: ms) =
            ('"' :: (jsonEscape k.toList ++ '"' :: ':' :: ' ' :: dumpJ v)) ++
              ',' :: ' ' :: dumpMembers (m :: ms) from rfl] at hc
          rcases List.mem_append.mp hc with hc | hc
          · exact mem_dumpMember_mid k v c hk hv hc
          rcases List.mem_cons.mp hc with rfl | hc
          · decide
          rcases List.mem_cons.mp hc with rfl | hc
          · decide
          · exact ih hd' c hc

theorem dropWhileSpace_cons_nonspace (c : Char) (cs : List Char)
    (h : pyIsSpace c = false) : dropWhileSpace (c :: cs) = c :: cs := by
  simp [dropWhileSpace, List.dropWhile_cons, h]

/-- `str.strip()` leaves a brace-delimited string unchanged. -/
theorem pyStripL_braces (mid : List Char) :
    pyStripL ('{' :: (mid ++ ['}'])) = '{' :: (mid ++ ['}']) := by
  unfold pyStripL
  have h1 : ('{' :: (mid ++ ['}'])).reverse = '}' :: (mid.reverse ++ ['{']) := by simp
  rw [h1, dropWhileSpace_cons_nonspace _ _ (by decide)]
  have h2 : ('}' :: (mid.reverse ++ ['{'])).reverse = '{' :: (mid ++ ['}']) := by simp
  rw [h2, dropWhileSpace_cons_nonspace _ _ (by decide)]

/-- `str.find` misses every pattern whose first character is absent. -/
theorem findSub_none_of_head_notin (p : Char) (ps cs : List Char)
    (h : ∀ c ∈ cs, (p == c) = false) : findSub cs (p :: ps) = none := by
  induction cs with
  | nil => rfl
  | cons c r ih =>
      unfold findSub
      rw [headMatches_first_false p ps c r (h c (by simp))]
      simp only [Bool.false_eq_true, if_false]
      rw [ih (fun x hx => h x (by simp [hx]))]

/-- The nested-brace regex closes exactly at the final `\x7d` when the body has
no brace. -/
theorem p1End_flat (mid : List Char) (tail : List Char)
    (h : ∀ c ∈ mid, midChar c = true) :
    p1End (mid ++ '}' :: tail) = some mid.length := by
  induction mid with
  | nil => rfl
  | cons c r ih =>
      obtain ⟨_, _, hbo, hbc, _⟩ := midChar_spec c (h c (by simp))
      simp only [List.cons_append]
      unfold p1End
      rw [beq_eq_false_iff_ne.mpr hbc]
      rw [beq_eq_false_iff_ne.mpr hbo]
      simp only [Bool.false_eq_true, if_false]
      rw [ih (fun x hx => h x (by simp [hx]))]
      simp

/-- On a brace-delimited brace-free body, the nested-object regex finds
exactly the whole string. -/
theorem findAll1_dump (mid : List Char) (h : ∀ c ∈ mid, midChar c = true) :
    findAll1 ('{' :: (mid ++ ['}'])) = ['{' :: (mid ++ ['}'])] := by
  unfold findAll1
  rw [show ('{' :: (mid ++ ['}'])).length = mid.length + 1 + 1 by simp]
  unfold findAll1Aux
  dsimp only
  rw [if_pos (show (('{' : Char) == '{') = true from rfl)]
  rw [p1End_flat mid [] h]
  dsimp only
  rw [List.take_of_length_le (by simp)]
  rw [List.drop_eq_nil_of_le (by simp)]
  have hnil : findAll1Aux (mid.length + 1) ([] : List Char) = [] := by
    unfold findAll1Aux
    rfl
  rw [hnil]

/-- `clean_json_response` is the identity on the `json.dumps` serialization
of a safe dictionary with distinct keys. -/
theorem clean_of_dump (d : List (String × JValue)) (hs : safeKVs d = true)
    (hnd : (d.map Prod.fst).Nodup) :
    clean_json_response (py_json_dumps (.obj d)) = py_json_dumps (.obj d) := by
  have hmid : ∀ c ∈ dumpMembers d, midChar c = true := dumpMembers_mid d hs
  have hnb : ∀ c ∈ '{' :: (dumpMembers d ++ ['}']), ((Char.ofNat 96) == c) = false := by
    intro c hc
    rcases List.mem_cons.mp hc with rfl | hc
    · decide
    rcases List.mem_append.mp hc with hc | hc
    · obtain ⟨_, _, _, _, h96⟩ := midChar_spec c (hmid c hc)
      exact char_beq_false_of_toNat_ne _ c
        (by rw [show (Char.ofNat 96).toNat = 96 from rfl]; omega)
    · rw [List.mem_singleton] at hc
      subst hc
      decide
  have hsf : stripFences ('{' :: (dumpMembers d ++ ['}'])) =
      '{' :: (dumpMembers d ++ ['}']) := by
    unfold stripFences
    rw [show ("```json".toList : List Char) = Char.ofNat 96 :: "``json".toList from rfl]
    rw [show ("```".toList : List Char) = Char.ofNat 96 :: "``".toList from rfl]
    unfold containsSub
    rw [findSub_none_of_head_notin _ ("``json".toList) _ hnb]
    rw [findSub_none_of_head_notin _ ("``".toList) _ hnb]
    rfl
  have hfv : firstValidJson ['{' :: (dumpMembers d ++ ['}'])] =
      some (py_json_dumps (.obj d)) := by
    unfold firstValidJson
    rw [show ('{' :: (dumpMembers d ++ ['}'])).asString = py_json_dumps (.obj d) from rfl]
    rw [jsonLoads_dump_obj d hs hnd]
    rw [if_pos (show (some (JValue.obj d)).isSome = true from rfl)]
    rw [pyStripL_braces (dumpMembers d)]
    rfl
  unfold clean_json_response
  dsimp only
  rw [show (py_json_dumps (.obj d)).toList = '{' :: (dumpMembers d ++ ['}']) from rfl]
  rw [pyStripL_braces (dumpMembers d)]
  rw [hsf]
  rw [findAll1_dump (dumpMembers d) hmid]
  rw [hfv]


/-! ### The field loop of `validate_json_fields` is idempotent -/

/-- Coercion sends `None` to `None` under every declared type. -/
theorem coerceValue_null (ty : JValue) : coerceValue ty JValue.null = .ok JValue.null := by
  unfold coerceValue
  cases hb1 : (ty == JValue.str "string") <;>
    cases hb2 : (ty == JValue.str "integer") <;>
      cases hb3 : (ty == JValue.str "boolean") <;>
        simp [hb1, hb2, hb3, isStrJ]

/-- Coerced values are fixpoints of the coercion at the same declared type. -/
theorem coerceValue_fix (ty v v' : JValue) (h : coerceValue ty v = .ok v') :
    coerceValue ty v' = .ok v' := by
  unfold coerceValue at h
  by_cases hb1 : (ty == JValue.str "string") = true
  · have hty := eq_of_beq hb1
    subst hty
    by_cases hm : isStrJ v = true
    · rw [if_neg (show ¬ (((JValue.str "string" == JValue.str "string") &&
        !(isStrJ v)) = true) from by rw [hm]; decide)] at h
      rw [if_neg (show ¬ ((JValue.str "string" == JValue.str "integer") = true) from
        by decide)] at h
      rw [if_neg (show ¬ ((JValue.str "string" == JValue.str "boolean") = true) from
        by decide)] at h
      simp only [Except.ok.injEq] at h
      subst h
      unfold coerceValue
      rw [if_neg (show ¬ (((JValue.str "string" == JValue.str "string") &&
        !(isStrJ v)) = true) from by rw [hm]; decide)]
      rw [if_neg (show ¬ ((JValue.str "string" == JValue.str "integer") = true) from
        by decide)]
      rw [if_neg (show ¬ ((JValue.str "string" == JValue.str "boolean") = true) from
        by decide)]
    · have hmf : isStrJ v = false := by
        cases hx : isStrJ v
        · rfl
        · exact absurd hx hm
      rw [if_pos (show (((JValue.str "string" == JValue.str "string") &&
        !(isStrJ v)) = true) from by rw [hmf]; decide)] at h
      simp only [Except.ok.injEq] at h
      by_cases hn : (v == JValue.null) = true
      · rw [if_pos hn] at h
        subst h
        exact coerceValue_null _
      · have hnf : (v == JValue.null) = false := by
          cases hx : (v == JValue.null)
          · rfl
          · exact absurd hx hn
        rw [hnf] at h
        simp only [Bool.false_eq_true, if_false] at h
        subst h
        unfold coerceValue
        rw [if_neg (show ¬ (((JValue.str "string" == JValue.str "string") &&
          !(isStrJ (JValue.str (pyStrJ v)))) = true) from by
            rw [show isStrJ (JValue.str (pyStrJ v)) = true from rfl]; decide)]
        rw [if_neg (show ¬ ((JValue.str "string" == JValue.str "integer") = true) from
          by decide)]
        rw [if_neg (show ¬ ((JValue.str "string" == JValue.str "boolean") = true) from
          by decide)]
  · have hb1f : (ty == JValue.str "string") = false := by
      cases hx : (ty == JValue.str "string")
      · rfl
      · exact absurd hx hb1
    rw [hb1f] at h
    simp only [Bool.false_and, Bool.false_eq_true, if_false] at h
    by_cases hb2 : (ty == JValue.str "integer") = true
    · have hty := eq_of_beq hb2
      subst hty
      rw [if_pos (show (JValue.str "integer" == JValue.str "integer") = true from
        by decide)] at h
      by_cases hn : (v == JValue.null) = true
      · rw [if_pos hn] at h
        simp only [Except.ok.injEq] at h
        subst h
        exact coerceValue_null _
      · have hnf : (v == JValue.null) = false := by
          cases hx : (v == JValue.null)
          · rfl
          · exact absurd hx hn
        rw [hnf] at h
        simp only [Bool.false_eq_true, if_false] at h
        cases hio : pyIntOfJ v with
        | error e =>
            rw [hio] at h
            simp at h
        | ok o =>
            rw [hio] at h
            cases o with
            | none =>
                simp only [Except.ok.injEq] at h
                subst h
                exact coerceValue_null _
            | some n =>
                simp only [Except.ok.injEq] at h
                subst h
                unfold coerceValue
                rw [if_neg (show ¬ (((JValue.str "integer" == JValue.str "string") &&
                  !(isStrJ (JValue.int n))) = true) from by
                    rw [show (JValue.str "integer" == JValue.str "string") = false from
                      by decide]
                    rw [show isStrJ (JValue.int n) = false from rfl]
                    decide)]
                rw [if_pos (show (JValue.str "integer" == JValue.str "integer") = true
                  from by decide)]
                rw [show (JValue.int n == JValue.null) = false from rfl]
                simp only [Bool.false_eq_true, if_false]
                rw [show pyIntOfJ (JValue.int n) = Except.ok (some n) from rfl]
    · have hb2f : (ty == JValue.str "integer") = false := by
        cases hx : (ty == JValue.str "integer")
        · rfl
        · exact absurd hx hb2
      rw [hb2f] at h
      simp only [Bool.false_eq_true, if_false] at h
      by_cases hb3 : (ty == JValue.str "boolean") = true
      · have hty := eq_of_beq hb3
        subst hty
        rw [if_pos (show (JValue.str "boolean" == JValue.str "boolean") = true from
          by decide)] at h
        simp only [Except.ok.injEq] at h
        by_cases hn : (v == JValue.null) = true
        · rw [if_pos hn] at h
          subst h
          exact coerceValue_null _
        · have hnf : (v == JValue.null) = false := by
            cases hx : (v == JValue.null)
            · rfl
            · exact absurd hx hn
          rw [hnf] at h
          simp only [Bool.false_eq_true, if_false] at h
          subst h
          unfold coerceValue
          rw [if_neg (show ¬ (((JValue.str "boolean" == JValue.str "string") &&
            !(isStrJ (JValue.bool (pyTruthy v)))) = true) from by
                rw [show (JValue.str "boolean" == JValue.str "string") = false from
                  by decide]
                rw [show isStrJ (JValue.bool (pyTruthy v)) = false from rfl]
                decide)]
          rw [if_neg (show ¬ ((JValue.str "boolean" == JValue.str "integer") = true) from
            by decide)]
          rw [if_pos (show (JValue.str "boolean" == JValue.str "boolean") = true from
            by decide)]
          rw [show (JValue.bool (pyTruthy v) == JValue.null) = false from rfl]
          simp only [Bool.false_eq_true, if_false]
          rw [show pyTruthy (JValue.bool (pyTruthy v)) = pyTruthy v from rfl]
      · have hb3f : (ty == JValue.str "boolean") = false := by
          cases hx : (ty == JValue.str "boolean")
          · rfl
          · exact absurd hx hb3
        rw [hb3f] at h
        simp only [Bool.false_eq_true, if_false, Except.ok.injEq] at h
        subst h
        unfold coerceValue
        rw [hb1f]
        simp only [Bool.false_and, Bool.false_eq_true, if_false]
        rw [hb2f]
        simp only [Bool.false_eq_true, if_false]
        rw [hb3f]
        simp only [Bool.false_eq_true, if_false]

/-- A key prepended to a dictionary does not affect lookups of other keys. -/
theorem coerceField_cons_ne (k : String) (v : JValue) (r : List (String × JValue))
    (k' : String) (ty : JValue) (hne : (k == k') = false) :
    coerceField (JValue.obj ((k, v) :: r)) k' ty = coerceField (JValue.obj r) k' ty := by
  have hne' : (k' == k) = false := by
    rw [beq_eq_false_iff_ne] at hne ⊢
    exact fun he => hne he.symm
  unfold coerceField
  rw [show pyContainsKey (JValue.obj ((k, v) :: r)) k' = pyContainsKey (JValue.obj r) k'
    from by
      unfold pyContainsKey
      simp [List.any_cons, hne]]
  rw [show pyIndexKey (JValue.obj ((k, v) :: r)) k' = pyIndexKey (JValue.obj r) k'
    from by
      unfold pyIndexKey
      simp [List.lookup, hne']]

theorem validateFields_cons_ne (k : String) (v : JValue) (r : List (String × JValue))
    (S : List (String × JValue)) (hk : ∀ kt ∈ S, (k == kt.1) = false) :
    validateFields (JValue.obj ((k, v) :: r)) S = validateFields (JValue.obj r) S := by
  induction S with
  | nil => rfl
  | cons kt rest ih =>
      obtain ⟨k', ty⟩ := kt
      simp only [validateFields]
      rw [coerceField_cons_ne k v r k' ty (hk (k', ty) (by simp))]
      rw [ih (fun x hx => hk x (by simp [hx]))]

/-- Validating against an empty object null-fills every declared field. -/
theorem validateFields_null_fill (S : List (String × JValue)) :
    validateFields (JValue.obj []) S = .ok (S.map fun kt => (kt.1, JValue.null)) := by
  induction S with
  | nil => rfl
  | cons kt rest ih =>
      obtain ⟨k, ty⟩ := kt
      simp only [validateFields]
      rw [coerceField_obj_absent [] k ty (by simp)]
      simp only [pyBind_ok]
      rw [ih]
      simp only [pyBind_ok, pyPure_eq, List.map_cons]

/-- The field loop is idempotent: re-validating its own output (against a
schema with distinct field names) reproduces that output. -/
theorem validateFields_fix :
    ∀ (S : List (String × JValue)) (parsed : JValue) (d : List (String × JValue)),
      (S.map Prod.fst).Nodup → validateFields parsed S = .ok d →
      validateFields (JValue.obj d) S = .ok d := by
  intro S
  induction S with
  | nil =>
      intro parsed d _ h
      simp only [validateFields, Except.ok.injEq] at h
      subst h
      rfl
  | cons kt rest ih =>
      intro parsed d hnd h
      obtain ⟨k, ty⟩ := kt
      simp only [validateFields] at h
      cases hcf : coerceField parsed k ty with
      | error e =>
          rw [hcf] at h
          simp at h
      | ok v =>
          rw [hcf] at h
          cases hvr : validateFields parsed rest with
          | error e =>
              rw [hvr] at h
              simp at h
          | ok r =>
              rw [hvr] at h
              simp only [pyBind_ok, pyPure_eq, Except.ok.injEq] at h
              subst h
              have hcv : coerceValue ty v = .ok v := by
                unfold coerceField at hcf
                cases hpc : pyContainsKey parsed k with
                | error e =>
                    rw [hpc] at hcf
                    simp at hcf
                | ok present =>
                    rw [hpc] at hcf
                    simp only [pyBind_ok] at hcf
                    cases present with
                    | false =>
                        simp only [Bool.false_eq_true, if_false, pyPure_eq,
                          Except.ok.injEq] at hcf
                        subst hcf
                        exact coerceValue_null ty
                    | true =>
                        rw [if_pos rfl] at hcf
                        cases hik : pyIndexKey parsed k with
                        | error e =>
                            rw [hik] at hcf
                            simp at hcf
                        | ok v0 =>
                            rw [hik] at hcf
                            simp only [pyBind_ok] at hcf
                            exact coerceValue_fix ty v0 v hcf
              have hknotin : k ∉ rest.map Prod.fst := by
                simp only [List.map_cons, List.nodup_cons] at hnd
                exact hnd.1
              have hndrest : (rest.map Prod.fst).Nodup := by
                simp only [List.map_cons, List.nodup_cons] at hnd
                exact hnd.2
              simp only [validateFields]
              have hcf2 : coerceField (JValue.obj ((k, v) :: r)) k ty = .ok v := by
                unfold coerceField
                rw [show pyContainsKey (JValue.obj ((k, v) :: r)) k = .ok true from by
                  unfold pyContainsKey
                  simp]
                simp only [pyBind_ok]
                rw [if_pos (by trivial)]
                rw [show pyIndexKey (JValue.obj ((k, v) :: r)) k = .ok v from by
                  unfold pyIndexKey
                  simp [List.lookup]]
                simp only [pyBind_ok]
                exact hcv
              rw [hcf2]
              simp only [pyBind_ok]
              rw [validateFields_cons_ne k v r rest (fun kt hkt =>
                beq_eq_false_iff_ne.mpr (fun he =>
                  hknotin (by rw [he]; exact List.mem_map_of_mem Prod.fst hkt)))]
              rw [ih parsed r hndrest hvr]
              simp only [pyBind_ok, pyPure_eq]

/-- The keys of the dictionary built by `validate_json_fields` are exactly the
declared field names, in order. -/
theorem normalizeDict_keys (O : String) (S : List (String × JValue))
    (d : List (String × JValue)) (h : normalizeDict O S = .ok d) :
    d.map Prod.fst = S.map Prod.fst := by
  unfold normalizeDict at h
  cases hjl : jsonLoads O with
  | none =>
      rw [hjl] at h
      simp only [Except.ok.injEq] at h
      subst h
      simp
  | some parsed =>
      rw [hjl] at h
      exact validateFields_keys S parsed d h

/-- C4 (amended): normalization is idempotent on every run whose first pass
produces a dictionary (no `TypeError` escaped the field loop) whose values
serialize without braces, quotes, escapes or backticks, for a schema with
distinct field names: the first pass serializes that dictionary, and
re-normalizing the serialization reproduces it exactly.  (The unamended claim
is refuted by `c4_counterexample`: a string value containing backtick fences
derails the markdown-stripping stage of the second pass.) -/
theorem c4_idempotence (S : List (String × JValue)) (O : String)
    (d : List (String × JValue)) (hnd : (S.map Prod.fst).Nodup)
    (hrun : normalizeDict (clean_json_response O) S = .ok d)
    (hsafe : safeKVs d = true) :
    normalize O S = .ok (py_json_dumps (.obj d)) ∧
    normalize (py_json_dumps (.obj d)) S = .ok (py_json_dumps (.obj d)) := by
  have hdnd : (d.map Prod.fst).Nodup := by
    rw [normalizeDict_keys _ S d hrun]
    exact hnd
  constructor
  · unfold normalize validate_json_fields
    unfold normalizeDict at hrun
    cases hjl : jsonLoads (clean_json_response O) with
    | none =>
        rw [hjl] at hrun
        simp only [Except.ok.injEq] at hrun
        rw [hrun]
    | some parsed =>
        rw [hjl] at hrun
        dsimp only at hrun
        dsimp only
        rw [hrun]
        simp only [pyBind_ok, pyPure_eq]
  · unfold normalize
    rw [clean_of_dump d hsafe hdnd]
    unfold validate_json_fields
    rw [jsonLoads_dump_obj d hsafe hdnd]
    have hfix : validateFields (JValue.obj d) S = .ok d := by
      unfold normalizeDict at hrun
      cases hjl : jsonLoads (clean_json_response O) with
      | none =>
          rw [hjl] at hrun
          simp only [Except.ok.injEq] at hrun
          exact validateFields_fix S (JValue.obj []) d hnd
            (by rw [validateFields_null_fill S, hrun])
      | some parsed =>
          rw [hjl] at hrun
          dsimp only at hrun
          exact validateFields_fix S parsed d hnd hrun
    dsimp only
    rw [hfix]
    simp only [pyBind_ok, pyPure_eq]

/-- Witness for the amended C4 theorem: a fenced model response against the
schema `a : string`. -/
theorem c4_idempotence_witness :
    (([("a", JValue.str "string")].map Prod.fst).Nodup ∧
      normalizeDict (clean_json_response "```json\n\x7b\"a\": \"hi\"\x7d\n```")
        [("a", JValue.str "string")] = .ok [("a", JValue.str "hi")] ∧
      safeKVs [("a", JValue.str "hi")] = true) ∧
    normalize "```json\n\x7b\"a\": \"hi\"\x7d\n```" [("a", JValue.str "string")] =
      .ok (py_json_dumps (.obj [("a", JValue.str "hi")])) ∧
    normalize (py_json_dumps (.obj [("a", JValue.str "hi")]))
      [("a", JValue.str "string")] =
      .ok (py_json_dumps (.obj [("a", JValue.str "hi")])) := by
  refine ⟨⟨by decide, rfl, rfl⟩, ?_⟩
  exact c4_idempotence [("a", JValue.str "string")] "```json\n\x7b\"a\": \"hi\"\x7d\n```"
    [("a", JValue.str "hi")] (by decide) rfl rfl

/-! ### `run_agent` (src/src/agent.py lines 772-1076) and the compiled agent loop -/

/-- A LangChain `AgentAction`: chosen tool, its input and the raw log text. -/
structure AgentActionM where
  tool : String
  tool_input : JValue
  log : String
deriving DecidableEq

/-- A LangChain `AgentFinish`: its `return_values` dict (the `output` entry,
with `citations` and `tools_used` entries when the code adds them) and log. -/
structure AgentFinishM where
  output : String
  citations : Option (List String)
  tools_used : Option (List JValue)
  log : String
deriving DecidableEq

/-- The `agent_outcome` value produced by one `run_agent` step. -/
inductive AgentOutcome where
  | action (a : AgentActionM)
  | finish (f : AgentFinishM)
deriving DecidableEq

/-- Python `str(b)` of a boolean, as interpolated by an f-string. -/
def pyBoolStr (b : Bool) : String := if b then "True" else "False"

/-- Python `"sep".join(xs)`. -/
def joinSep (sep : String) : List String → String
  | [] => ""
  | [x] => x
  | x :: y :: rest => x ++ sep ++ joinSep sep (y :: rest)

/-- Python `.items()` iteration over a decoded value: only dicts have it. -/
def dictItems : JValue → Except PyErr (List (String × JValue))
  | .obj kvs => .ok kvs
  | _ => .error (.attributeError "object has no attribute items")

def jGetD (kvs : List (String × JValue)) (k : String) (d : JValue) : JValue :=
  (kvs.lookup k).getD d

/-- Python `v.get(k, default)`: `AttributeError` off dicts. -/
def pyGet (v : JValue) (k : String) (dflt : JValue) : Except PyErr JValue :=
  match v with
  | .obj kvs => .ok (jGetD kvs k dflt)
  | _ => .error (.attributeError "object has no attribute get")

/-- Python `v[k]` for a string key: `KeyError` when a dict lacks the key,
`TypeError` off dicts. -/
def pyIndexRaise (v : JValue) (k : String) : Except PyErr JValue :=
  match v with
  | .obj kvs =>
      match kvs.lookup k with
      | some x => .ok x
      | none => .error (.keyError k)
  | .arr _ => .error (.typeError "list indices must be integers or slices, not str")
  | .str _ => .error (.typeError "string indices must be integers")
  | _ => .error (.typeError "object is not subscriptable")

/-- The gate `bool(json_structure.get("format") == "json" and
json_structure.get("fields"))`. -/
def is_json_request (js : List (String × JValue)) : Bool :=
  (jGet js "format" == some (JValue.str "json")) &&
    (match jGet js "fields" with
     | some v => pyTruthy v
     | none => false)

/-- Case-insensitive substring test `t in user_input.lower()` used by the
`needs_*` flags. -/
def lcontains (q t : String) : Bool := containsSub (pyLowerL q.toList) t.toList

def needs_web_search (q : String) : Bool :=
  lcontains q "search" ||
    (lcontains q "find" && (lcontains q "recent" || lcontains q "news")) ||
    lcontains q "latest" || lcontains q "current"

def needs_linkedin (q : String) : Bool :=
  lcontains q "linkedin" ||
    (lcontains q "profile" && (lcontains q "person" || lcontains q "executive"))

def needs_company_info (q : String) : Bool :=
  lcontains q "company info" || lcontains q "company data" ||
    lcontains q "business information" || lcontains q "company summary" ||
    (lcontains q "company" &&
      (lcontains q "about" || lcontains q "information" || lcontains q "summary" ||
        lcontains q "profile" || lcontains q "details" || lcontains q "research")) ||
    (lcontains q "analyze" && (lcontains q "company" || lcontains q "business"))

def needs_scraping (q : String) : Bool := lcontains q "scrape" || lcontains q "http"

def needs_job_search (q : String) : Bool :=
  (lcontains q "job" && lcontains q "search") || lcontains q "job listings" ||
    lcontains q "hiring"

/-- The `- name: description` catalogue interpolated into the tool-selection
prompt, from the `tools` list and each tool's docstring. -/
def tool_descriptions : String :=
  "- search_web: 🔍 Web Search (MCP): Searches the web for current information, news, trends, and real-time data using BrightData's web search capabilities.\n" ++
  "- scrape_url: 📄 URL Scraper (MCP): Extracts content from specific web pages in markdown format using BrightData's web scraping technology.\n" ++
  "- get_linkedin_profile: 👤 LinkedIn Profile (MCP): Retrieves detailed LinkedIn profile information including professional background, experience, and connections using BrightData's LinkedIn data extraction.\n" ++
  "- get_company_info: 🏢 Company Intelligence (MCP): Gathers comprehensive company information from LinkedIn, Crunchbase, or ZoomInfo using BrightData's business intelligence platform.\n" ++
  "- search_jobs: 💼 Job Intelligence (MCP): Searches LinkedIn for job listings, hiring trends, and employment opportunities using BrightData's job market data.\n" ++
  "- get_product_info: 🛒 Product Intelligence (MCP): Retrieves product information, pricing, and market data from e-commerce platforms using BrightData's retail intelligence.\n" ++
  "- research_company_web: 🔍 Company Web Research (MCP): Falls back to web search for company information when direct company tools fail."

/-- The f-string prompt of the tool-results JSON branch (`final_prompt`,
lines 837-851); `json_structure` and `tool_results` interpolate via `str`. -/
def jsonStepsPrompt (js : List (String × JValue)) (tool_results : List String) : String :=
  "\nYou are an SDR AI assistant. Based on the tool results, create a JSON response matching the user's exact field specification.\n\nUser's JSON Structure Request: " ++
  pyStrJ (.obj js) ++ "\nTool Results: " ++ pyStrJ (.arr (tool_results.map .str)) ++
  "\n\nCRITICAL REQUIREMENTS:\n1. Return ONLY valid JSON matching the exact field names and types specified\n2. Use null for any field where data cannot be determined\n3. Ensure data types match exactly (string, integer, boolean)\n4. NO markdown formatting, NO code blocks, NO additional text, ONLY pure JSON\n5. Do not include any explanatory text before or after the JSON\n\nJSON Response:\n"

/-- The f-string prompt of the tool-results plain-text branch (lines 855-868). -/
def plainStepsPrompt (user_input : String) (tool_results : List String) : String :=
  "\nYou are an SDR AI assistant. Based on the tool results, provide a concise, actionable response for sales development activities.\n\nUser Query: " ++
  user_input ++ "\nTool Results: " ++ pyStrJ (.arr (tool_results.map .str)) ++
  "\n\nRequirements:\n1. Provide actionable insights relevant to SDR activities\n2. Be concise and professional\n3. Include source citations at the end\n4. Explain how the MCP tools helped gather this information\n\nResponse:\n"

/-- The f-string tool-selection prompt (`tool_prompt`, lines 937-962). -/
def toolSelectPrompt (q : String) : String :=
  "\nYou are an SDR AI assistant. The user query requires MCP tool usage for real-time data.\n\nUser Query: " ++
  q ++ "\nAvailable Tools: " ++ tool_descriptions ++
  "\n\nCRITICAL: You MUST respond with EXACTLY this JSON format for tool selection:\n\x7b\"tool\": \"tool_name\", \"tool_input\": \x7b\"param\": \"value\"\x7d\x7d\n\nBased on the query, determine which tool to use:\n- For \"latest\", \"recent\", \"current\", \"news\", \"trends\" → use \"search_web\" \n- For company research → use \"get_company_info\"\n- For LinkedIn profiles → use \"get_linkedin_profile\"\n- For job searches → use \"search_jobs\"\n- For URL scraping → use \"scrape_url\"\n- For product research → use \"get_product_info\"\n\nQuery analysis:\n- Contains \"latest\": " ++
  pyBoolStr (lcontains q "\"latest\"") ++ "\n- Contains \"news\": " ++
  pyBoolStr (lcontains q "\"news\"") ++ "\n- Contains \"current\": " ++
  pyBoolStr (lcontains q "\"current\"") ++ "\n- Contains \"recent\": " ++
  pyBoolStr (lcontains q "\"recent\"") ++ "\n- Web search needed: " ++
  pyBoolStr (needs_web_search q) ++ "\n\nYour tool selection (JSON only):\n"

/-- The f-string direct-answer JSON prompt (`direct_prompt`, lines 1021-1037). -/
def directJsonPrompt (js : List (String × JValue)) (q : String) : String :=
  "\nYou are an SDR AI assistant. Provide information based on your knowledge in the exact JSON format requested.\n\nUser's JSON Structure: " ++
  pyStrJ (.obj js) ++ "\nQuery Context: " ++ q ++
  "\n\nCRITICAL REQUIREMENTS:\n1. Return ONLY valid JSON matching exact field names and types\n2. Use null for fields where information is not available\n3. Ensure data types match specification (string, integer, boolean)\n4. NO markdown formatting, NO code blocks, NO explanatory text\n5. ONLY return the JSON object, nothing else\n\nExample format: \x7b\"field1\": \"value1\", \"field2\": \"value2\"\x7d\n\nJSON Response:\n"

/-- The f-string direct-answer plain prompt (lines 1039-1051). -/
def directPlainPrompt (q : String) : String :=
  "\nYou are an SDR AI assistant. Answer the query with actionable insights for sales development.\n\nUser Query: " ++
  q ++ "\n\nRequirements:\n1. Provide concise, actionable information relevant to SDR activities\n2. Be professional and helpful\n3. Note that response is based on general knowledge\n4. Include relevant context for sales development\n\nResponse:\n"

/-- The icon table of `format_tool_usage_summary`, a dict `get` with default. -/
def categoryIcon (cat : JValue) : String :=
  if cat == JValue.str "Web Intelligence" then "🔍"
  else if cat == JValue.str "Business Intelligence" then "🏢"
  else if cat == JValue.str "Professional Intelligence" then "👤"
  else if cat == JValue.str "Job Market Intelligence" then "💼"
  else if cat == JValue.str "Content Extraction" then "📄"
  else if cat == JValue.str "Retail Intelligence" then "🛒"
  else "🔧"

/-- Append a tool record under its category, preserving dict insertion order. -/
def catUpsert (acc : List (JValue × List JValue)) (cat : JValue) (ti : JValue) :
    List (JValue × List JValue) :=
  match acc with
  | [] => [(cat, [ti])]
  | (c, l) :: rest =>
      if c == cat then (c, l ++ [ti]) :: rest
      else (c, l) :: catUpsert rest cat ti

/-- The grouping loop of `format_tool_usage_summary`: `tool_info.get` raises
`AttributeError` off dicts. -/
def groupCats : List JValue → List (JValue × List JValue) →
    Except PyErr (List (JValue × List JValue))
  | [], acc => .ok acc
  | ti :: rest, acc => do
      let cat ← pyGet ti "tool_category" (JValue.str "Unknown")
      groupCats rest (catUpsert acc cat ti)

/-- One `- icon **name**: purpose` block of the summary. -/
def renderTool (cat : JValue) (ti : JValue) : Except PyErr String := do
  let name ← pyGet ti "tool_name" (JValue.str "Unknown")
  let purpose ← pyGet ti "purpose" (JValue.str "Data collection")
  let provider ← pyGet ti "mcp_provider" (JValue.str "BrightData")
  let dtype ← pyGet ti "data_type" (JValue.str "Various")
  pure ("- " ++ categoryIcon cat ++ " **" ++ pyStrJ name ++ "**: " ++ pyStrJ purpose ++
    "\n" ++ "  - *Provider*: " ++ pyStrJ provider ++ "\n  - *Data Type*: " ++
    pyStrJ dtype ++ "\n")

def renderTools (cat : JValue) : List JValue → Except PyErr String
  | [] => .ok ""
  | ti :: rest => do
      let s ← renderTool cat ti
      let r ← renderTools cat rest
      pure (s ++ r)

def renderCats : List (JValue × List JValue) → Except PyErr String
  | [] => .ok ""
  | (cat, ts) :: rest => do
      let body ← renderTools cat ts
      let r ← renderCats rest
      pure ("\n### 📊 " ++ pyStrJ cat ++ "\n" ++ body ++ r)

/-- `format_tool_usage_summary` (lines 608-638). -/
def format_tool_usage_summary (tools_used : List JValue) : Except PyErr String :=
  match tools_used with
  | [] => .ok "🤖 **AI Processing**: Response generated using built-in knowledge base"
  | _ => do
      let cats ← groupCats tools_used []
      let body ← renderCats cats
      pure ("\n\n## 🛠️ **MCP Tools Used:**\n" ++ body)

/-- The fallback tool-info dict built when an observation parses but carries
no `_tool_info` entry. -/
def fallbackToolInfo1 (a : AgentActionM) : JValue :=
  .obj [("tool_name", .str a.tool), ("tool_category", .str "Data Collection"),
        ("mcp_provider", .str "BrightData"),
        ("purpose", .str ("Executed " ++ a.tool ++ " with input: " ++ pyStrJ a.tool_input)),
        ("data_type", .str "Various")]

/-- The fallback tool-info dict of the bare `except` (any parsing error). -/
def fallbackToolInfo2 (a : AgentActionM) : JValue :=
  .obj [("tool_name", .str a.tool), ("tool_category", .str "Data Collection"),
        ("mcp_provider", .str "BrightData"),
        ("purpose", .str ("Executed " ++ a.tool)),
        ("data_type", .str "Various")]

/-- Per-step tool-info extraction (lines 803-830): observations are strings
(`execute_tools` stores `str(observation)`), so they are JSON-decoded; the
bare `except` catches the decode failure and the `TypeError` raised by `in`
or `[...]` on decoded non-dicts. -/
def toolInfoOf (a : AgentActionM) (obs : String) : JValue :=
  match jsonLoads obs with
  | none => fallbackToolInfo2 a
  | some od =>
      match pyContainsKey od "_tool_info" with
      | .error _ => fallbackToolInfo2 a
      | .ok true =>
          match pyIndexRaise od "_tool_info" with
          | .ok v => v
          | .error _ => fallbackToolInfo2 a
      | .ok false => fallbackToolInfo1 a

def toolResultsOf (steps : List (AgentActionM × String)) : List String :=
  steps.map (fun p => "Tool: " ++ p.1.tool ++ "\nResult: " ++ p.2)

def citationsOf (steps : List (AgentActionM × String)) : List String :=
  steps.map (fun p => "Source: " ++ p.1.tool ++ " - " ++ pyStrJ p.1.tool_input)

def toolsUsedOf (steps : List (AgentActionM × String)) : List JValue :=
  steps.map (fun p => toolInfoOf p.1 p.2)

/-- The tool-results branch of `run_agent` (lines 792-890): it always builds
an `AgentFinish` (JSON branch validated, plain branch with citations and the
tool summary appended), or lets an exception escape. -/
def stepsAnswer (llm : String → String) (user_input : String)
    (js : List (String × JValue)) (steps : List (AgentActionM × String)) :
    Except PyErr AgentFinishM :=
  let tool_results := toolResultsOf steps
  let citations := citationsOf steps
  let tools_used := toolsUsedOf steps
  if is_json_request js then do
    let final_response := llm (jsonStepsPrompt js tool_results)
    let fields ← dictItems (jGetD js "fields" .null)
    let validated ← validate_json_fields (clean_json_response final_response) fields
    pure ⟨validated, some citations, some tools_used, final_response⟩
  else do
    let tool_summary ← format_tool_usage_summary tools_used
    let final_response := llm (plainStepsPrompt user_input tool_results)
    let citation_text := "\n\nSources:\n" ++ joinSep "\n" (citations.map ("• " ++ ·))
    pure ⟨final_response ++ citation_text ++ tool_summary, none, none, final_response⟩

/-- The forced company-name extraction
`user_input.lower().replace("company", "").replace("info", "").replace("about", "").strip()`. -/
def forcedCompanyName (q : String) : String :=
  pyStrip (pyReplace (pyReplace (pyReplace (pyLower q) "company" "") "info" "") "about" "")

/-- The `except (json.JSONDecodeError, KeyError)` handler of the
tool-selection block (lines 1004-1017). -/
def toolSelectionExcept (e : PyErr) (q : String) : AgentOutcome :=
  if needs_web_search q then
    .action ⟨"search_web", .obj [("query", .str q)], "Backup web search for: " ++ q⟩
  else
    .finish ⟨"Tool selection failed: " ++ pyErrStr e, none, none,
      "Tool selection failed: " ++ pyErrStr e⟩

/-- The tool-selection `try` block (lines 967-1017): `.ok (some o)` is a
returned outcome, `.ok none` the fall-through into the direct-answer path,
`.error` an uncaught exception (`TypeError` from indexing a decoded non-dict
or the validation error for a non-string tool name are not in the `except`
clause).  The position detail of the decode error's message is not modelled
(the handler only embeds `str(e)` into a fallback output). -/
def trySelectTool (q raw : String) : Except PyErr (Option AgentOutcome) :=
  if pyStartsWith (pyStripL raw.toList) ['{'] && containsSub raw.toList "\"tool\"".toList then
    match jsonLoads (clean_json_response raw) with
    | none => .ok (some (toolSelectionExcept (.jsonDecodeError "Expecting value") q))
    | some resp =>
        match pyIndexRaise resp "tool" with
        | .error (.keyError k) => .ok (some (toolSelectionExcept (.keyError k) q))
        | .error e => .error e
        | .ok t =>
            match pyIndexRaise resp "tool_input" with
            | .error (.keyError k) => .ok (some (toolSelectionExcept (.keyError k) q))
            | .error e => .error e
            | .ok ti =>
                match t with
                | .str tname => .ok (some (.action ⟨tname, ti, raw⟩))
                | _ => .error (.validationError "tool: str type expected")
  else
    if needs_web_search q then
      .ok (some (.action ⟨"search_web", .obj [("query", .str q)],
        "Forced web search for: " ++ q⟩))
    else if needs_company_info q then
      .ok (some (.action ⟨"get_company_info",
        .obj [("company_name", .str (forcedCompanyName q)), ("platform", .str "auto")],
        "Forced company info search for: " ++ forcedCompanyName q⟩))
    else .ok none

/-- The direct-answer block (lines 1019-1076): the `try/except Exception`
catches everything, so this branch always finishes. -/
def directAnswer (llm : String → String) (q : String)
    (js : List (String × JValue)) (isJson : Bool) : AgentOutcome :=
  if isJson then
    let direct_response := llm (directJsonPrompt js q)
    match (do
        let fields ← dictItems (jGetD js "fields" .null)
        validate_json_fields (clean_json_response direct_response) fields :
        Except PyErr String) with
    | .ok validated =>
        .finish ⟨validated, some ["Source: General knowledge base"], some [],
          direct_response⟩
    | .error e =>
        .finish ⟨"Response generation error: " ++ pyErrStr e ++
          ". Please try rephrasing your query.", none, none, pyErrStr e⟩
  else
    let direct_response := llm (directPlainPrompt q)
    match format_tool_usage_summary [] with
    | .ok tool_summary =>
        .finish ⟨direct_response ++ "\n\nSource: General knowledge base" ++ tool_summary,
          none, none, direct_response⟩
    | .error e =>
        .finish ⟨"Response generation error: " ++ pyErrStr e ++
          ". Please try rephrasing your query.", none, none, pyErrStr e⟩

/-- `run_agent` (lines 772-1076), parameterised by the model backend: extract
any JSON structure (its `AttributeError` escapes), answer from tool results
when `intermediate_steps` is non-empty, otherwise select a tool when a
`needs_*` flag fires (falling through to the direct answer when the forced
selection has no branch) or answer directly. -/
def run_agent (llm : String → String) (user_input : String)
    (intermediate_steps : List (AgentActionM × String)) : Except PyErr AgentOutcome := do
  let js ← extract_json_structure user_input
  match intermediate_steps with
  | _ :: _ => (stepsAnswer llm user_input js intermediate_steps).map .finish
  | [] =>
      if needs_web_search user_input || needs_linkedin user_input ||
          needs_company_info user_input || needs_scraping user_input ||
          needs_job_search user_input then
        match trySelectTool user_input (llm (toolSelectPrompt user_input)) with
        | .error e => .error e
        | .ok (some o) => .ok o
        | .ok none => .ok (directAnswer llm user_input js (is_json_request js))
      else .ok (directAnswer llm user_input js (is_json_request js))

/-- The `action` node `execute_tools` (lines 1079-1093), parameterised by the
tool runtime: the returned update *replaces* `intermediate_steps` with the
single new pair, the observation stringified. -/
def execute_tools (toolExec : AgentActionM → String) (a : AgentActionM) :
    List (AgentActionM × String) :=
  [(a, toolExec a)]

/-- One turn per fuel unit of the compiled graph `agent → (end | action →
agent)`: the result pairs the final outcome with the number of tool
invocations; `none` is fuel exhaustion. -/
def loopAux (llm : String → String) (toolExec : AgentActionM → String)
    (user_input : String) :
    Nat → List (AgentActionM × String) → Nat → Option (Except PyErr AgentFinishM × Nat)
  | 0, _, _ => none
  | fuel + 1, steps, calls =>
      match run_agent llm user_input steps with
      | .error e => some (.error e, calls)
      | .ok (.finish f) => some (.ok f, calls)
      | .ok (.action a) =>
          loopAux llm toolExec user_input fuel (execute_tools toolExec a) (calls + 1)

/-- The compiled app started on the initial state (`intermediate_steps = []`). -/
def runApp (llm : String → String) (toolExec : AgentActionM → String)
    (user_input : String) (fuel : Nat) : Option (Except PyErr AgentFinishM × Nat) :=
  loopAux llm toolExec user_input fuel [] 0

/-! ### Claims C2, C5, C6 and C9: behaviour of the decision step and loop -/

def c2input : String :=
  "\x7b\"format\":\"json\",\"fields\":\x7b\"company_name\":\"string\",\"is_public\":\"boolean\"\x7d\x7d\n\nInfo about a fictional company"

/-- A backend that always answers with prose: no JSON object, no tool JSON,
no public-market vocabulary. -/
def c2llm : String → String :=
  fun _ => "The firm is a small private startup focused on gardening tools."

def c2exec : AgentActionM → String := fun _ => "obs"

/-- C2, counterexample: on the claim's own scenario the loop forces the
`get_company_info` tool once and then null-fills both fields — there is no
text-mining fallback and no `"Unknown Company"` value anywhere in the code. -/
theorem c2_counterexample :
    (loopAux c2llm c2exec c2input 3 [] 0).map
        (fun r => (r.1.map AgentFinishM.output, r.2)) =
      some (.ok "\x7b\"company_name\": null, \"is_public\": null\x7d", 1) ∧
    ("\x7b\"company_name\": null, \"is_public\": null\x7d" : String) ≠
      "\x7b\"company_name\": \"Unknown Company\", \"is_public\": null\x7d" :=
  ⟨rfl, by decide⟩

/-- C2 (amended): when the model's final output cleans to something that is
not JSON, `validate_json_fields` null-fills every declared field of the
schema `\x7bcompany_name: string, is_public: boolean\x7d`; no heuristic text
mining fills `company_name`. -/
theorem c2_nullfill (O : String) (h : jsonLoads (clean_json_response O) = none) :
    normalize O (schemaOf [("company_name", "string"), ("is_public", "boolean")]) =
      .ok "\x7b\"company_name\": null, \"is_public\": null\x7d" := by
  unfold normalize validate_json_fields
  rw [h]
  rfl

/-- Witness for the amended C2 theorem. -/
theorem c2_nullfill_witness :
    jsonLoads (clean_json_response "no structured data here") = none ∧
    normalize "no structured data here"
        (schemaOf [("company_name", "string"), ("is_public", "boolean")]) =
      .ok "\x7b\"company_name\": null, \"is_public\": null\x7d" :=
  ⟨rfl, c2_nullfill "no structured data here" rfl⟩

def c5input : String :=
  "\x7b\"format\":\"json\",\"fields\":\x7b\"a\":\"string\"\x7d\x7d\n\nDo X"

def c5js : List (String × JValue) :=
  [("format", .str "json"), ("fields", .obj [("a", .str "string")])]

/-- A probe backend answering `YES` exactly when its prompt still carries
both the instruction text and the unremoved schema literal. -/
def c5llm : String → String := fun p =>
  if containsSub p.toList "Do X".toList &&
      containsSub p.toList "\"format\"".toList then "YES" else "NO"

set_option maxRecDepth 100000 in
/-- C5, counterexample: extraction returns the entire matched object (the
`format` marker included), computes no `instruction` remainder, and the
decision step hands the raw input — schema literal and `Do X` both still in
place — to the model: the probe backend sees both and answers `YES`, which
null-fills the declared field. -/
theorem c5_counterexample :
    extract_json_structure c5input = .ok c5js ∧
    jGet c5js "format" = some (JValue.str "json") ∧
    run_agent c5llm c5input [] = .ok (.finish
      ⟨"\x7b\"a\": null\x7d", some ["Source: General knowledge base"], some [], "YES"⟩) :=
  ⟨rfl, rfl, rfl⟩

set_option maxRecDepth 100000 in
/-- C5 (amended): `extract_json_structure` on the schema-plus-instruction
input returns the complete parsed object — both the `format` and `fields`
entries, not the `fields` projection — and `run_agent` performs no
instruction split: the direct-path prompt embeds the raw input verbatim, and
the outcome is exactly the direct answer built from that unmodified input. -/
theorem c5_full_structure :
    extract_json_structure c5input = .ok c5js ∧
    containsSub (directJsonPrompt c5js c5input).toList c5input.toList = true ∧
    (∀ llm : String → String,
        run_agent llm c5input [] = .ok (directAnswer llm c5input c5js true)) :=
  ⟨rfl, rfl, fun _ => rfl⟩

/-- A backend whose answer already carries a citation marker. -/
def c6llm : String → String :=
  fun _ => "Paris is the capital of France. Source: Atlas, 1999"

/-- C6, counterexample: a plain-text answer that already contains a
`Source:` marker still gets the knowledge-base citation line and the tool
summary appended — nothing is returned unmodified. -/
theorem c6_counterexample :
    run_agent c6llm "Hello" [] = .ok (.finish
      ⟨"Paris is the capital of France. Source: Atlas, 1999" ++
        "\n\nSource: General knowledge base" ++
        "🤖 **AI Processing**: Response generated using built-in knowledge base",
        none, none, "Paris is the capital of France. Source: Atlas, 1999"⟩) ∧
    containsSub "Paris is the capital of France. Source: Atlas, 1999".toList
      "Source:".toList = true ∧
    ("Paris is the capital of France. Source: Atlas, 1999" ++
        "\n\nSource: General knowledge base" ++
        "🤖 **AI Processing**: Response generated using built-in knowledge base" : String) ≠
      "Paris is the capital of France. Source: Atlas, 1999" :=
  ⟨rfl, rfl, by decide⟩

/-- C6 (amended): both plain-text finishing branches append their citation
material unconditionally — the direct path adds the knowledge-base source
line and empty-tool summary, the tool-results path adds the source list and
tool summary — with no test for citation markers already present. -/
theorem c6_unconditional_append :
    (∀ (llm : String → String) (q : String) (js : List (String × JValue)),
        extract_json_structure q = .ok js → is_json_request js = false →
        (needs_web_search q || needs_linkedin q || needs_company_info q ||
          needs_scraping q || needs_job_search q) = false →
        run_agent llm q [] = .ok (.finish
          ⟨llm (directPlainPrompt q) ++ "\n\nSource: General knowledge base" ++
            "🤖 **AI Processing**: Response generated using built-in knowledge base",
            none, none, llm (directPlainPrompt q)⟩)) ∧
    (∀ (llm : String → String) (q : String) (js : List (String × JValue))
        (steps : List (AgentActionM × String)) (tool_summary : String),
        extract_json_structure q = .ok js → is_json_request js = false →
        steps ≠ [] →
        format_tool_usage_summary (toolsUsedOf steps) = .ok tool_summary →
        run_agent llm q steps = .ok (.finish
          ⟨llm (plainStepsPrompt q (toolResultsOf steps)) ++
            ("\n\nSources:\n" ++ joinSep "\n" ((citationsOf steps).map ("• " ++ ·))) ++
            tool_summary,
            none, none, llm (plainStepsPrompt q (toolResultsOf steps))⟩)) := by
  constructor
  · intro llm q js hex hjson hflags
    unfold run_agent
    rw [hex]
    simp only [pyBind_ok]
    rw [hflags]
    simp only [Bool.false_eq_true, if_false]
    unfold directAnswer
    rw [hjson]
    simp only [Bool.false_eq_true, if_false]
    rfl
  · intro llm q js steps tool_summary hex hjson hne hsum
    unfold run_agent
    rw [hex]
    simp only [pyBind_ok]
    cases steps with
    | nil => exact absurd rfl hne
    | cons s rest =>
        unfold stepsAnswer
        rw [hjson]
        simp only [Bool.false_eq_true, if_false]
        rw [hsum]
        simp only [pyBind_ok, pyPure_eq]
        rfl


/-- Witness for the amended C6 theorem: the appended suffix is there even
for a one-word query. -/
theorem c6_unconditional_append_witness :
    run_agent (fun _ => "resp") "Hello" [] = .ok (.finish
      ⟨"resp" ++ "\n\nSource: General knowledge base" ++
        "🤖 **AI Processing**: Response generated using built-in knowledge base",
        none, none, "resp"⟩) :=
  c6_unconditional_append.1 (fun _ => "resp") "Hello" [] rfl rfl rfl

/-- C9, counterexample: on the input `5` with a non-empty step list, the
decision step does not return an `AgentFinish` — `extract_json_structure`
decodes the input to an integer and the `.get` probe raises an uncaught
`AttributeError`. -/
theorem c9_counterexample :
    run_agent (fun _ => "x") "5" [(⟨"search_web", JValue.obj [], "log"⟩, "obs")] =
      .error (.attributeError "object has no attribute get") := rfl

/-- C9 (amended): with non-empty `intermediate_steps` the decision step
never returns a tool action — it finishes or raises — and with fuel for two
decision turns the compiled loop always settles, invoking at most one tool. -/
theorem c9_no_second_action :
    (∀ (llm : String → String) (input : String)
        (steps : List (AgentActionM × String)) (a : AgentActionM),
        steps ≠ [] → run_agent llm input steps ≠ .ok (.action a)) ∧
    (∀ (llm : String → String) (toolExec : AgentActionM → String)
        (input : String) (fuel : Nat), 2 ≤ fuel →
        ∃ r calls, runApp llm toolExec input fuel = some (r, calls) ∧ calls ≤ 1) := by
  have h1 : ∀ (llm : String → String) (input : String)
      (steps : List (AgentActionM × String)) (a : AgentActionM),
      steps ≠ [] → run_agent llm input steps ≠ .ok (.action a) := by
    intro llm input steps a hne heq
    unfold run_agent at heq
    cases hex : extract_json_structure input with
    | error e =>
        rw [hex] at heq
        simp only [pyBind_err] at heq
        exact Except.noConfusion heq
    | ok js =>
        rw [hex] at heq
        simp only [pyBind_ok] at heq
        cases steps with
        | nil => exact hne rfl
        | cons s rest =>
            cases hsa : stepsAnswer llm input js (s :: rest) with
            | error e =>
                rw [hsa] at heq
                simp [Except.map] at heq
            | ok f =>
                rw [hsa] at heq
                simp [Except.map] at heq
  refine ⟨h1, ?_⟩
  intro llm toolExec input fuel hf
  obtain ⟨k, rfl⟩ : ∃ k, fuel = k + 2 := ⟨fuel - 2, by omega⟩
  cases hr : run_agent llm input [] with
  | error e =>
      refine ⟨.error e, 0, ?_, by omega⟩
      unfold runApp loopAux
      rw [hr]
  | ok o =>
      cases o with
      | finish f =>
          refine ⟨.ok f, 0, ?_, by omega⟩
          unfold runApp loopAux
          rw [hr]
      | action a =>
          cases hr2 : run_agent llm input (execute_tools toolExec a) with
          | error e =>
              refine ⟨.error e, 1, ?_, by omega⟩
              unfold runApp loopAux
              rw [hr]
              dsimp only
              unfold loopAux
              rw [hr2]
          | ok o2 =>
              cases o2 with
              | action a2 =>
                  exact absurd hr2
                    (h1 llm input (execute_tools toolExec a) a2 (by simp [execute_tools]))
              | finish f =>
                  refine ⟨.ok f, 1, ?_, by omega⟩
                  unfold runApp loopAux
                  rw [hr]
                  dsimp only
                  unfold loopAux
                  rw [hr2]

/-- Witness for the amended C9 theorem at concrete inputs. -/
theorem c9_no_second_action_witness :
    run_agent (fun _ => "r") "Hello" [(⟨"search_web", JValue.obj [], "l"⟩, "o")] ≠
      .ok (.action ⟨"search_web", JValue.obj [], "l"⟩) ∧
    ∃ r calls,
      runApp (fun _ => "r") (fun _ => "o") "Hello" 2 = some (r, calls) ∧ calls ≤ 1 :=
  ⟨c9_no_second_action.1 (fun _ => "r") "Hello" [(⟨"search_web", JValue.obj [], "l"⟩, "o")]
      ⟨"search_web", JValue.obj [], "l"⟩ (by simp),
   c9_no_second_action.2 (fun _ => "r") (fun _ => "o") "Hello" 2 (by omega)⟩

/-! ### The MCP gateway `call_tool` (src/src/brightdata_client.py lines 88-184) -/

/-- One element of an MCP result's `content` list: with or without a `.text`
attribute. -/
inductive ContentItem where
  | textItem (text : String)
  | plain (rep : String)
deriving DecidableEq

/-- The value of a `content` attribute: `None`, a list, or another object. -/
inductive PyContent where
  | pyNone
  | items (xs : List ContentItem)
  | other (rep : String)
deriving DecidableEq

/-- An MCP call result object: its optional `content` attribute, its `str`,
and the name of its type. -/
structure MCPResultM where
  content : Option PyContent
  reprStr : String
  typeName : String
deriving DecidableEq

/-- What one provider invocation does: deliver a result, exceed the
`asyncio.wait_for` bound, or raise. -/
inductive ProviderOutcome where
  | result (r : MCPResultM)
  | timeout
  | raise (e : PyErr)

/-- A Python value stored in the envelope dict that `call_tool` returns. -/
inductive ToolData where
  | pyNone
  | pyBool (b : Bool)
  | pyStr (s : String)
  | ofJson (v : JValue)
  | ofItem (i : ContentItem)
  | ofContent (c : PyContent)
  | ofResult (r : MCPResultM)
  | placeholder (raw : String)
deriving DecidableEq

/-- One issued session invocation: the mapped tool name, the arguments, and
the `asyncio.wait_for` bound in seconds. -/
structure SessionCall where
  name : String
  args : JValue
  timeoutSeconds : Nat
deriving DecidableEq

/-- The alias table of `_map_tool_name` (lines 170-184). -/
def toolMappings : List (String × String) :=
  [("crunchbase_company", "web_data_crunchbase_company"),
   ("linkedin_person_profile", "web_data_linkedin_person_profile"),
   ("linkedin_company_profile", "web_data_linkedin_company_profile"),
   ("linkedin_job_listings", "web_data_linkedin_job_listings"),
   ("linkedin_posts", "web_data_linkedin_posts"),
   ("zoominfo_company_profile", "web_data_zoominfo_company_profile"),
   ("amazon_product", "web_data_amazon_product"),
   ("amazon_product_search", "web_data_amazon_product_search")]

def _map_tool_name (tool_name : String) : String :=
  (toolMappings.lookup tool_name).getD tool_name

/-- The payload-extraction block of `call_tool` (lines 116-146): take the
`content` attribute if any, the first item's `.text` if the content is a
non-empty list, JSON-decode text that starts with a brace or bracket, and
substitute the `\x7b"messages": [], "raw_result": str(result)\x7d` placeholder when
extraction produced `None`. -/
def extractData (r : MCPResultM) : ToolData :=
  match r.content with
  | none => .ofResult r
  | some .pyNone => .placeholder r.reprStr
  | some (.other o) => .ofContent (.other o)
  | some (.items []) => .ofContent (.items [])
  | some (.items (i :: _)) =>
      match i with
      | .textItem t =>
          if pyStartsWith (pyStripL t.toList) ['{'] ||
              pyStartsWith (pyStripL t.toList) ['['] then
            match jsonLoads t with
            | some v => .ofJson v
            | none => .pyStr t
          else .pyStr t
      | .plain p => .ofItem (.plain p)

/-- `call_tool` (lines 88-168), parameterised by the session state and the
provider: `ValueError` when not connected; the failure envelope (and no
provider invocation) for a tool missing from the advertised catalogue; and
otherwise one `asyncio.wait_for`-bounded invocation whose timeout, exception
and success outcomes each map to an envelope dict.  The second component
records the invocations issued to the provider session. -/
def call_tool (connected : Bool) (available_tools : List String)
    (provider : String → JValue → ProviderOutcome)
    (tool_name : String) (arguments : JValue) :
    Except PyErr (List (String × ToolData) × List SessionCall) :=
  if !connected then .error (.valueError "Not connected to MCP server")
  else
    let actual := _map_tool_name tool_name
    if !(available_tools.contains actual) then
      .ok ([("success", .pyBool false),
            ("error", .pyStr ("Tool '" ++ tool_name ++ "' not available. Available tools: " ++
              pyStrJ (.arr (available_tools.map .str)))),
            ("tool", .pyStr tool_name)], [])
    else
      match provider actual arguments with
      | .timeout =>
          .ok ([("success", .pyBool false),
                ("error", .pyStr ("Tool '" ++ actual ++ "' timed out after 30 seconds")),
                ("tool", .pyStr actual)], [⟨actual, arguments, 30⟩])
      | .raise e =>
          .ok ([("success", .pyBool false),
                ("error", .pyStr (pyErrStr e)),
                ("tool", .pyStr actual)], [⟨actual, arguments, 30⟩])
      | .result r =>
          .ok ([("success", .pyBool true),
                ("data", extractData r),
                ("tool", .pyStr actual),
                ("raw_response_type", .pyStr r.typeName)], [⟨actual, arguments, 30⟩])

/-- Extraction never leaves `None` in the data slot: the placeholder object
replaces it. -/
theorem extractData_ne_none (r : MCPResultM) : extractData r ≠ ToolData.pyNone := by
  unfold extractData
  rcases r.content with _ | c
  · simp
  · cases c with
    | pyNone => simp
    | other o => simp
    | items xs =>
        cases xs with
        | nil => simp
        | cons i rest =>
            cases i with
            | textItem t =>
                dsimp only
                by_cases hb : (pyStartsWith (pyStripL t.toList) ['{'] ||
                    pyStartsWith (pyStripL t.toList) ['[']) = true
                · rw [if_pos hb]
                  cases jsonLoads t <;> simp
                · rw [if_neg hb]
                  simp
            | plain p => simp

/-- C7, counterexample: the unknown-tool envelope has *no* `data` entry at
all (the claim's `data: null` key is absent), and the provider session is
never invoked. -/
theorem c7_counterexample :
    call_tool true ["scrape_as_markdown"] (fun _ _ => .timeout) "search_engine" (.obj []) =
      .ok ([("success", .pyBool false),
            ("error", .pyStr "Tool 'search_engine' not available. Available tools: ['scrape_as_markdown']"),
            ("tool", .pyStr "search_engine")], []) ∧
    ([("success", ToolData.pyBool false),
      ("error", ToolData.pyStr "Tool 'search_engine' not available. Available tools: ['scrape_as_markdown']"),
      ("tool", ToolData.pyStr "search_engine")].lookup "data" = (none : Option ToolData)) :=
  ⟨rfl, rfl⟩

/-- C7 (amended): a tool whose alias-mapped name is missing from the
advertised catalogue yields `\x7bsuccess: false, error: "Tool ... not
available. ...", tool: name\x7d` — an envelope with no `data` entry — and no
invocation reaches the provider session. -/
theorem c7_unknown_tool (available : List String)
    (provider : String → JValue → ProviderOutcome) (tool_name : String) (args : JValue)
    (h : available.contains (_map_tool_name tool_name) = false) :
    call_tool true available provider tool_name args =
      .ok ([("success", .pyBool false),
            ("error", .pyStr ("Tool '" ++ tool_name ++ "' not available. Available tools: " ++
              pyStrJ (.arr (available.map .str)))),
            ("tool", .pyStr tool_name)], []) := by
  unfold call_tool
  dsimp only
  rw [h]
  rfl

/-- Witness for the amended C7 theorem. -/
theorem c7_unknown_tool_witness :
    (["web_data_crunchbase_company"].contains (_map_tool_name "nope")) = false ∧
    call_tool true ["web_data_crunchbase_company"] (fun _ _ => .timeout) "nope" (.obj []) =
      .ok ([("success", .pyBool false),
            ("error", .pyStr ("Tool '" ++ "nope" ++ "' not available. Available tools: " ++
              pyStrJ (.arr (["web_data_crunchbase_company"].map .str)))),
            ("tool", .pyStr "nope")], []) :=
  ⟨by decide, c7_unknown_tool ["web_data_crunchbase_company"] (fun _ _ => .timeout)
    "nope" (.obj []) (by decide)⟩

/-- C8: every provider invocation that `call_tool` issues carries the fixed
30-second `asyncio.wait_for` bound, and an elapsed timeout comes back as the
typed failure envelope `\x7bsuccess: false, error: "... timed out after 30
seconds", tool: ...\x7d` — an ordinary return, not a raised fault. -/
theorem c8_timeout_bound :
    (∀ (connected : Bool) (available : List String)
        (provider : String → JValue → ProviderOutcome) (tool : String) (args : JValue)
        (env : List (String × ToolData)) (calls : List SessionCall),
        call_tool connected available provider tool args = .ok (env, calls) →
        ∀ c ∈ calls, c.timeoutSeconds = 30) ∧
    (∀ (available : List String) (provider : String → JValue → ProviderOutcome)
        (tool : String) (args : JValue),
        available.contains (_map_tool_name tool) = true →
        provider (_map_tool_name tool) args = .timeout →
        call_tool true available provider tool args =
          .ok ([("success", .pyBool false),
                ("error", .pyStr ("Tool '" ++ _map_tool_name tool ++ "' timed out after 30 seconds")),
                ("tool", .pyStr (_map_tool_name tool))],
               [⟨_map_tool_name tool, args, 30⟩])) := by
  constructor
  · intro connected available provider tool args env calls h c hc
    unfold call_tool at h
    cases connected with
    | false => simp at h
    | true =>
        rw [if_neg (show ¬((!true) = true) from by decide)] at h
        dsimp only at h
        cases hav : available.contains (_map_tool_name tool) with
        | false =>
            rw [hav] at h
            rw [if_pos (show ((!false) = true) from by decide)] at h
            simp only [Except.ok.injEq, Prod.mk.injEq] at h
            rw [← h.2] at hc
            simp at hc
        | true =>
            rw [hav] at h
            rw [if_neg (show ¬((!true) = true) from by decide)] at h
            cases hp : provider (_map_tool_name tool) args with
            | result r =>
                rw [hp] at h
                simp only [Except.ok.injEq, Prod.mk.injEq] at h
                rw [← h.2] at hc
                simp only [List.mem_singleton] at hc
                rw [hc]
            | timeout =>
                rw [hp] at h
                simp only [Except.ok.injEq, Prod.mk.injEq] at h
                rw [← h.2] at hc
                simp only [List.mem_singleton] at hc
                rw [hc]
            | raise e =>
                rw [hp] at h
                simp only [Except.ok.injEq, Prod.mk.injEq] at h
                rw [← h.2] at hc
                simp only [List.mem_singleton] at hc
                rw [hc]
  · intro available provider tool args hav hp
    unfold call_tool
    dsimp only
    rw [hav, hp]
    rfl

/-- Witness for the C8 theorem. -/
theorem c8_timeout_bound_witness :
    (∀ c ∈ ([⟨"search_engine", JValue.obj [], 30⟩] : List SessionCall),
        c.timeoutSeconds = 30) ∧
    call_tool true ["search_engine"] (fun _ _ => .timeout) "search_engine" (.obj []) =
      .ok ([("success", .pyBool false),
            ("error", .pyStr ("Tool '" ++ _map_tool_name "search_engine" ++
              "' timed out after 30 seconds")),
            ("tool", .pyStr (_map_tool_name "search_engine"))],
           [⟨_map_tool_name "search_engine", JValue.obj [], 30⟩]) :=
  ⟨c8_timeout_bound.1 true ["search_engine"] (fun _ _ => .timeout) "search_engine"
      (.obj [])
      [("success", .pyBool false),
       ("error", .pyStr "Tool 'search_engine' timed out after 30 seconds"),
       ("tool", .pyStr "search_engine")]
      [⟨"search_engine", JValue.obj [], 30⟩] rfl,
   c8_timeout_bound.2 ["search_engine"] (fun _ _ => .timeout) "search_engine" (.obj [])
     (by decide) rfl⟩

/-- C10: a successful envelope always carries a `data` entry, and that entry
is never `None` — the placeholder object stands in when nothing was
extractable. -/
theorem c10_success_data_nonnull (connected : Bool) (available : List String)
    (provider : String → JValue → ProviderOutcome) (tool : String) (args : JValue)
    (env : List (String × ToolData)) (calls : List SessionCall)
    (h : call_tool connected available provider tool args = .ok (env, calls))
    (hs : env.lookup "success" = some (.pyBool true)) :
    ∃ d, env.lookup "data" = some d ∧ d ≠ ToolData.pyNone := by
  unfold call_tool at h
  cases connected with
  | false => simp at h
  | true =>
      rw [if_neg (show ¬((!true) = true) from by decide)] at h
      dsimp only at h
      cases hav : available.contains (_map_tool_name tool) with
      | false =>
          rw [hav] at h
          rw [if_pos (show ((!false) = true) from by decide)] at h
          simp only [Except.ok.injEq, Prod.mk.injEq] at h
          rw [← h.1] at hs
          simp [List.lookup] at hs
      | true =>
          rw [hav] at h
          rw [if_neg (show ¬((!true) = true) from by decide)] at h
          cases hp : provider (_map_tool_name tool) args with
          | timeout =>
              rw [hp] at h
              simp only [Except.ok.injEq, Prod.mk.injEq] at h
              rw [← h.1] at hs
              simp [List.lookup] at hs
          | raise e =>
              rw [hp] at h
              simp only [Except.ok.injEq, Prod.mk.injEq] at h
              rw [← h.1] at hs
              simp [List.lookup] at hs
          | result r =>
              rw [hp] at h
              simp only [Except.ok.injEq, Prod.mk.injEq] at h
              rw [← h.1]
              exact ⟨extractData r, by simp [List.lookup], extractData_ne_none r⟩

/-- Witness for the C10 theorem. -/
theorem c10_success_data_nonnull_witness :
    ∃ d, ([("success", ToolData.pyBool true),
           ("data", extractData ⟨none, "r", "ty"⟩),
           ("tool", ToolData.pyStr "search_engine"),
           ("raw_response_type", ToolData.pyStr "ty")].lookup "data") = some d ∧
      d ≠ ToolData.pyNone :=
  c10_success_data_nonnull true ["search_engine"]
    (fun _ _ => .result ⟨none, "r", "ty"⟩) "search_engine" (.obj [])
    [("success", ToolData.pyBool true),
     ("data", extractData ⟨none, "r", "ty"⟩),
     ("tool", ToolData.pyStr "search_engine"),
     ("raw_response_type", ToolData.pyStr "ty")]
    [⟨"search_engine", JValue.obj [], 30⟩] rfl rfl

end SDRAgent
